import Mathlib

/-!
# pistore: the chunk codec, its integrity checks and the identifiers

A shallow embedding of `src/pkg/common/chunk.go`, `src/pkg/utils/utils.go`
and `processPath` of `src/cmd/pistore_cli/main.go`.

* Byte slices are lists of naturals, every element a byte value (below 256);
  a nil slice and an empty slice are both the empty list.
* `uint64` and `int64` fields are `Nat` and `Int`; the encoders reduce modulo
  `2 ^ 64` explicitly.
* Functions returning `(T, error)` return `Except GoError T`, except
  `decompressData`, whose byte result is read even when the error is set.
* `time.Now().Unix()` is an explicit argument `now`.
* The Go standard library is modelled as far as the chunk code exercises it:
  `crypto/md5` (RFC 1321), `encoding/binary` (`Write`, `Read`, `dataSize`),
  `io.ReadFull`, `bytes.Buffer.Read`, `encoding/hex`, and `encoding/json` with
  `encoding/base64` for this struct.  `compress/gzip` is a parameter (`Gzip`)
  of the functions that call it.
* The file system, the network interfaces and the host name are explicit
  inputs.
-/

namespace Pistore

/-- Byte sequences: Go's `[]byte` and `[n]byte`. -/
abbrev Bytes := List Nat

/-! ## Little-endian integers -/

/-- The natural number whose little-endian digits (base 256) are `bs`. -/
def leGet : Bytes → Nat
  | [] => 0
  | b :: bs => b % 256 + 256 * leGet bs

/-- The `n` low-order bytes of `v`, least significant first. -/
def lePut : Nat → Nat → Bytes
  | 0, _ => []
  | n + 1, v => v % 256 :: lePut n (v / 256)

/-! ## crypto/md5 (RFC 1321) -/

/-- Per-round left-rotation amounts. -/
def md5Shifts : List Nat :=
  [7, 12, 17, 22, 7, 12, 17, 22, 7, 12, 17, 22, 7, 12, 17, 22,
   5, 9, 14, 20, 5, 9, 14, 20, 5, 9, 14, 20, 5, 9, 14, 20,
   4, 11, 16, 23, 4, 11, 16, 23, 4, 11, 16, 23, 4, 11, 16, 23,
   6, 10, 15, 21, 6, 10, 15, 21, 6, 10, 15, 21, 6, 10, 15, 21]

/-- Round constants: the integer part of `2 ^ 32 * |sin (i + 1)|`. -/
def md5Sines : List Nat :=
  [0xd76aa478, 0xe8c7b756, 0x242070db, 0xc1bdceee, 0xf57c0faf, 0x4787c62a, 0xa8304613, 0xfd469501,
   0x698098d8, 0x8b44f7af, 0xffff5bb1, 0x895cd7be, 0x6b901122, 0xfd987193, 0xa679438e, 0x49b40821,
   0xf61e2562, 0xc040b340, 0x265e5a51, 0xe9b6c7aa, 0xd62f105d, 0x02441453, 0xd8a1e681, 0xe7d3fbc8,
   0x21e1cde6, 0xc33707d6, 0xf4d50d87, 0x455a14ed, 0xa9e3e905, 0xfcefa3f8, 0x676f02d9, 0x8d2a4c8a,
   0xfffa3942, 0x8771f681, 0x6d9d6122, 0xfde5380c, 0xa4beea44, 0x4bdecfa9, 0xf6bb4b60, 0xbebfbc70,
   0x289b7ec6, 0xeaa127fa, 0xd4ef3085, 0x04881d05, 0xd9d4d039, 0xe6db99e5, 0x1fa27cf8, 0xc4ac5665,
   0xf4292244, 0x432aff97, 0xab9423a7, 0xfc93a039, 0x655b59c3, 0x8f0ccc92, 0xffeff47d, 0x85845dd1,
   0x6fa87e4f, 0xfe2ce6e0, 0xa3014314, 0x4e0811a1, 0xf7537e82, 0xbd3af235, 0x2ad7d2bb, 0xeb86d391]

/-- Rotate the 32-bit word `x` left by `c` bits. -/
def rotl32 (x c : Nat) : Nat := ((x <<< c) ||| (x >>> (32 - c))) % 2 ^ 32

/-- Bitwise complement of a 32-bit word. -/
def not32 (x : Nat) : Nat := x ^^^ 0xffffffff

/-- The four 32-bit chaining words of MD5. -/
structure MD5State where
  a : Nat
  b : Nat
  c : Nat
  d : Nat
deriving DecidableEq, Repr

/-- Initial chaining value. -/
def md5Init : MD5State := ⟨0x67452301, 0xefcdab89, 0x98badcfe, 0x10325476⟩

/-- The auxiliary functions F, G, H, I, selected by the step number. -/
def md5Mix (i b c d : Nat) : Nat :=
  if i < 16 then (b &&& c) ||| (not32 b &&& d)
  else if i < 32 then (d &&& b) ||| (not32 d &&& c)
  else if i < 48 then b ^^^ c ^^^ d
  else c ^^^ (b ||| not32 d)

/-- Which message word step `i` consumes. -/
def md5Index (i : Nat) : Nat :=
  if i < 16 then i
  else if i < 32 then (5 * i + 1) % 16
  else if i < 48 then (3 * i + 5) % 16
  else (7 * i) % 16

/-- One of the 64 steps on a block whose sixteen words are `m`. -/
def md5Step (m : List Nat) (s : MD5State) (i : Nat) : MD5State :=
  let x := (s.a + md5Mix i s.b s.c s.d + md5Sines.getD i 0 + m.getD (md5Index i) 0) % 2 ^ 32
  ⟨s.d, (s.b + rotl32 x (md5Shifts.getD i 0)) % 2 ^ 32, s.b, s.c⟩

/-- The first `n` little-endian 32-bit words of a byte sequence. -/
def md5Words : Nat → Bytes → List Nat
  | 0, _ => []
  | n + 1, bs => leGet (bs.take 4) :: md5Words n (bs.drop 4)

/-- Compression of one 64-byte block. -/
def md5Block (s : MD5State) (block : Bytes) : MD5State :=
  let t := (List.range 64).foldl (md5Step (md5Words 16 block)) s
  ⟨(s.a + t.a) % 2 ^ 32, (s.b + t.b) % 2 ^ 32, (s.c + t.c) % 2 ^ 32, (s.d + t.d) % 2 ^ 32⟩

/-- Padding: a 0x80 byte, zeros up to 56 modulo 64, the bit length on 8 bytes. -/
def md5Pad (msg : Bytes) : Bytes :=
  msg ++ 0x80 :: List.replicate ((119 - msg.length % 64) % 64) 0 ++
    lePut 8 (8 * msg.length % 2 ^ 64)

/-- Fold the compression function over `n` consecutive 64-byte blocks. -/
def md5Blocks : Nat → Bytes → MD5State → MD5State
  | 0, _, s => s
  | n + 1, bs, s => md5Blocks n (bs.drop 64) (md5Block s (bs.take 64))

/-- Go's `md5.Sum`: the 16-byte MD5 digest. -/
def md5Sum (msg : Bytes) : Bytes :=
  let s := md5Blocks ((msg.length + 8) / 64 + 1) (md5Pad msg) md5Init
  lePut 4 s.a ++ lePut 4 s.b ++ lePut 4 s.c ++ lePut 4 s.d

/-- One lowercase hexadecimal digit. -/
def hexDigit (n : Nat) : Char := "0123456789abcdef".toList.getD n '0'

/-- Go's `hex.EncodeToString` (and the `%x` verb on a byte array): two
lowercase hexadecimal digits per byte. -/
def hexEncode (bs : Bytes) : String :=
  String.mk (bs.flatMap fun b => [hexDigit (b / 16 % 16), hexDigit (b % 16)])

/-! ## Errors and panics -/

/-- The Go error values the chunk code can return. -/
inductive GoError where
  /-- Go's `io.EOF`. -/
  | eof
  /-- Go's `io.ErrUnexpectedEOF`. -/
  | unexpectedEOF
  /-- The error of `binary.Write` for a value whose type has no fixed size. -/
  | binaryWrite (typeName : String)
  /-- The error of `binary.Read` for a destination of an unsupported type. -/
  | binaryRead (typeName : String)
  /-- Go's `gzip.ErrHeader`. -/
  | gzipHeader
  /-- Go's `gzip.ErrChecksum`. -/
  | gzipChecksum
  /-- Go's `flate.CorruptInputError`. -/
  | flateCorrupt
  /-- Any other error, by its message. -/
  | other (msg : String)
deriving DecidableEq, Repr

/-- Run-time panics. -/
inductive GoPanic where
  /-- A slice expression `s[low:high]` with `low > high`. -/
  | sliceBounds (low high : Nat)
deriving DecidableEq, Repr

/-! ## encoding/binary -/

/-- The Go types of the values the chunk code hands to `binary.Write` and
`binary.Read`. -/
inductive GoType where
  | uint64
  | int64
  | byteArray16
  | string
deriving DecidableEq, Repr

/-- The values of a Go type. -/
@[reducible] def GoType.val : GoType → Type
  | .uint64 => Nat
  | .int64 => Int
  | .byteArray16 => Bytes
  | .string => String

/-- The type's name as `reflect` prints it. -/
def GoType.goName : GoType → String
  | .uint64 => "uint64"
  | .int64 => "int64"
  | .byteArray16 => "[16]uint8"
  | .string => "string"

/-- Go's `binary.dataSize`: the encoded size of a value of the type, `none`
(Go's -1) when the type is not fixed-size.  Only booleans, fixed-width
numbers, and arrays and structs of them have a size; a string has none. -/
def GoType.dataSize : GoType → Option Nat
  | .uint64 => some 8
  | .int64 => some 8
  | .byteArray16 => some 16
  | .string => none

/-- Little-endian encoding of a fixed-size value. -/
def GoType.put : (t : GoType) → t.val → Bytes
  | .uint64, (v : Nat) => lePut 8 v
  | .int64, (v : Int) => lePut 8 (v % 2 ^ 64).toNat
  | .byteArray16, (v : Bytes) => v
  | .string, _ => []

/-- Little-endian decoding of a fixed-size value. -/
def GoType.get : (t : GoType) → Bytes → t.val
  | .uint64, bs => leGet bs
  | .int64, bs => if leGet bs < 2 ^ 63 then (leGet bs : Int) else (leGet bs : Int) - 2 ^ 64
  | .byteArray16, bs => bs
  | .string, _ => ""

/-- Go's `binary.Write(&buf, binary.LittleEndian, v)` on a `bytes.Buffer`
holding `buf`: the new content, or the error for a value that is not
fixed-size (nothing is written then). -/
def binaryWrite (buf : Bytes) (t : GoType) (v : t.val) : Except GoError Bytes :=
  match t.dataSize with
  | none => .error (.binaryWrite t.goName)
  | some _ => .ok (buf ++ t.put v)

/-- Go's `io.ReadFull` of `n` bytes from a `bytes.Buffer` holding `buf`: the
bytes read and the rest, `io.EOF` when nothing could be read, and
`io.ErrUnexpectedEOF` when fewer than `n` bytes were there. -/
def readFull (buf : Bytes) (n : Nat) : Except GoError (Bytes × Bytes) :=
  if n ≤ buf.length then .ok (buf.take n, buf.drop n)
  else if buf.length = 0 then .error .eof
  else .error .unexpectedEOF

/-- Go's `binary.Read(buf, binary.LittleEndian, &x)` for `x` of type `t`: the
decoded value and the rest of the buffer.  A destination whose type is not
fixed-size is rejected before anything is read. -/
def binaryRead (buf : Bytes) (t : GoType) : Except GoError (t.val × Bytes) :=
  match t.dataSize with
  | none => .error (.binaryRead ("*" ++ t.goName))
  | some n =>
    match readFull buf n with
    | .error err => .error err
    | .ok (bs, rest) => .ok (t.get bs, rest)

/-- Go's `bytes.Buffer.Read(p)` with `p = make([]byte, n)`: the content of `p`
afterwards (what was copied, then the zeros `make` left) and the rest of the
buffer; `io.EOF` when the buffer is empty and `n` is not zero. -/
def bufferRead (buf : Bytes) (n : Nat) : Except GoError (Bytes × Bytes) :=
  if buf.length = 0 then
    if n = 0 then .ok ([], []) else .error .eof
  else .ok (buf.take n ++ List.replicate (n - buf.length) 0, buf.drop n)

/-! ## compress/gzip -/

/-- The behaviour of Go's `compress/gzip` that `compressData` and
`decompressData` observe.  Its writer always writes into a fresh
`bytes.Buffer`, its reader always reads a `bytes.Buffer` holding the whole
input, so each call is a function of the input bytes. -/
structure Gzip where
  /-- The error, if any, of `writer.Write(data)`. -/
  write : Bytes → Option GoError
  /-- The error, if any, of the `writer.Close()` that follows. -/
  close : Bytes → Option GoError
  /-- The content of the buffer after `Write` and `Close`. -/
  output : Bytes → Bytes
  /-- The error, if any, of `gzip.NewReader` (reading the header). -/
  newReader : Bytes → Option GoError
  /-- The result of `ioutil.ReadAll(reader)`: the bytes decompressed before
  the end of the stream or the first error, and that error. -/
  readAll : Bytes → Bytes × Option GoError

/-! ## The chunk -/

/-- The `Chunk` struct. -/
structure Chunk where
  ChunkID : Bytes
  BirthVersion : Nat
  POID : Bytes
  Offset : Nat
  TimeStamp : Int
  OriginalSize : Nat
  CompressedSize : Nat
  OriginalDataFP : Bytes
  CompressedDataFP : Bytes
  CompressionAlg : String
  Data : Bytes
deriving DecidableEq, Repr

/-- A 16-byte array. -/
def isByteArray16 (bs : Bytes) : Bool := bs.length == 16 && bs.all (· < 256)

/-- The field values a Go `Chunk` can hold. -/
def Chunk.wellTyped (c : Chunk) : Bool :=
  isByteArray16 c.ChunkID && decide (c.BirthVersion < 2 ^ 64) && isByteArray16 c.POID &&
  decide (c.Offset < 2 ^ 64) && decide (-2 ^ 63 ≤ c.TimeStamp) && decide (c.TimeStamp < 2 ^ 63) &&
  decide (c.OriginalSize < 2 ^ 64) && decide (c.CompressedSize < 2 ^ 64) &&
  isByteArray16 c.OriginalDataFP && isByteArray16 c.CompressedDataFP && c.Data.all (· < 256)

/-- The zero value of a `[16]byte`. -/
def zero16 : Bytes := List.replicate 16 0

def computeMD5 (data : Bytes) : Bytes := md5Sum data

def compressData (gz : Gzip) (data : Bytes) : Except GoError Bytes :=
  match gz.write data with
  | some err => .error err
  | none =>
    match gz.close data with
    | some err => .error err
    | none => .ok (gz.output data)

/-- Both results of the Go function: the bytes and the error.  When
`gzip.NewReader` fails the bytes are nil. -/
def decompressData (gz : Gzip) (data : Bytes) : Bytes × Option GoError :=
  match gz.newReader data with
  | some err => ([], some err)
  | none => gz.readAll data

def Chunk.SerializeWithoutChunkID (c : Chunk) : Except GoError Bytes := do
  let buf : Bytes := []
  let buf ← binaryWrite buf .uint64 c.BirthVersion
  let buf ← binaryWrite buf .byteArray16 c.POID
  let buf ← binaryWrite buf .uint64 c.Offset
  let buf ← binaryWrite buf .int64 c.TimeStamp
  let buf ← binaryWrite buf .uint64 c.OriginalSize
  let buf ← binaryWrite buf .uint64 c.CompressedSize
  let buf ← binaryWrite buf .byteArray16 c.OriginalDataFP
  let buf ← binaryWrite buf .byteArray16 c.CompressedDataFP
  let buf ← binaryWrite buf .string c.CompressionAlg
  return buf ++ c.Data

/-- The slice that `serialized, _ := chunk.SerializeWithoutChunkID()` binds:
the error is dropped, and the slice is nil when there was one. -/
def serializedOrNil (c : Chunk) : Bytes :=
  match c.SerializeWithoutChunkID with
  | .ok serialized => serialized
  | .error _ => []

/-- A Go slice length is an `int`, so `uint64(len(x))` is `x.length` exactly. -/
def NewChunkFromOriginalData (gz : Gzip) (now : Int) (birthVersion : Nat) (poid : Bytes)
    (offset : Nat) (originalData : Bytes) : Except GoError Chunk :=
  match compressData gz originalData with
  | .error err => .error err
  | .ok compressedData =>
    let originalDataFP := computeMD5 originalData
    let compressedDataFP := computeMD5 compressedData
    let chunk : Chunk :=
      { ChunkID := zero16
        BirthVersion := birthVersion
        POID := poid
        Offset := offset
        TimeStamp := now
        OriginalSize := originalData.length
        CompressedSize := compressedData.length
        OriginalDataFP := originalDataFP
        CompressedDataFP := compressedDataFP
        CompressionAlg := "gzip"
        Data := compressedData }
    let serialized := serializedOrNil chunk
    .ok { chunk with ChunkID := computeMD5 serialized }

def NewChunkFromCompressedData (now : Int) (birthVersion : Nat) (poid : Bytes)
    (offset originalSize compressedSize : Nat) (originalData compressedData : Bytes)
    (compressionAlg : String) : Chunk :=
  let originalDataFP := computeMD5 originalData
  let compressedDataFP := computeMD5 compressedData
  let chunk : Chunk :=
    { ChunkID := zero16
      BirthVersion := birthVersion
      POID := poid
      Offset := offset
      TimeStamp := now
      OriginalSize := originalSize
      CompressedSize := compressedSize
      OriginalDataFP := originalDataFP
      CompressedDataFP := compressedDataFP
      CompressionAlg := compressionAlg
      Data := compressedData }
  let serialized := serializedOrNil chunk
  { chunk with ChunkID := computeMD5 serialized }

def Chunk.Serialize (c : Chunk) : Except GoError Bytes := do
  let dataWithoutChunkID ← c.SerializeWithoutChunkID
  let buf : Bytes := []
  let buf ← binaryWrite buf .byteArray16 c.ChunkID
  return buf ++ dataWithoutChunkID

/-- The slice `make([]byte, chunk.CompressedSize)` is taken to succeed for
every size. -/
def DeserializeChunk (data : Bytes) : Except GoError Chunk := do
  let buf := data
  let (chunkID, buf) ← binaryRead buf .byteArray16
  let (birthVersion, buf) ← binaryRead buf .uint64
  let (poid, buf) ← binaryRead buf .byteArray16
  let (offset, buf) ← binaryRead buf .uint64
  let (timeStamp, buf) ← binaryRead buf .int64
  let (originalSize, buf) ← binaryRead buf .uint64
  let (compressedSize, buf) ← binaryRead buf .uint64
  let (originalDataFP, buf) ← binaryRead buf .byteArray16
  let (compressedDataFP, buf) ← binaryRead buf .byteArray16
  let (compressionAlg, buf) ← binaryRead buf .string
  let (chunkData, _) ← bufferRead buf compressedSize
  return { ChunkID := chunkID
           BirthVersion := birthVersion
           POID := poid
           Offset := offset
           TimeStamp := timeStamp
           OriginalSize := originalSize
           CompressedSize := compressedSize
           OriginalDataFP := originalDataFP
           CompressedDataFP := compressedDataFP
           CompressionAlg := compressionAlg
           Data := chunkData }

def Chunk.VerifyCompressedDataChecksum (c : Chunk) : Bool :=
  c.CompressedDataFP == computeMD5 c.Data

def Chunk.VerifyOriginalDataChecksum (gz : Gzip) (c : Chunk) : Bool :=
  let originalData := (decompressData gz c.Data).1
  c.OriginalDataFP == computeMD5 originalData

/-- The slice expression `data[16:]` panics when `data` has fewer than 16
bytes. -/
def Chunk.VerifyChunkID (c : Chunk) (data : Bytes) : Except GoPanic Bool :=
  if 16 ≤ data.length then .ok (c.ChunkID == computeMD5 (data.drop 16))
  else .error (.sliceBounds 16 data.length)

/-! ## A gzip codec of stored blocks

A concrete `Gzip`: a writer that emits the gzip header Go writes, the data in
stored (uncompressed) deflate blocks, and the CRC-32 and length trailer; and
a reader for single-member streams of such blocks without optional header
fields.  It instantiates the library parameter at concrete inputs; the
statements about the chunk code hold for every `Gzip`. -/

/-- One bit of the reflected CRC-32 (polynomial 0xedb88320). -/
def crc32Bit (c : Nat) : Nat := if c % 2 = 1 then (c / 2) ^^^ 0xedb88320 else c / 2

/-- CRC-32 update by one byte. -/
def crc32Byte (c b : Nat) : Nat := crc32Bit^[8] (c ^^^ (b % 256))

/-- The IEEE CRC-32 of a byte sequence. -/
def crc32 (bs : Bytes) : Nat := (bs.foldl crc32Byte 0xffffffff) ^^^ 0xffffffff

/-- The ten-byte header: magic, deflate, no flags, no time, unknown OS. -/
def gzipHeaderBytes : Bytes := [0x1f, 0x8b, 8, 0, 0, 0, 0, 0, 0, 0xff]

/-- The data cut in stored blocks of at most 65535 bytes, the last one final. -/
def storedBlocks : Nat → Bytes → Bytes
  | 0, _ => [1, 0, 0, 0xff, 0xff]
  | fuel + 1, d =>
    if d.length ≤ 65535 then 1 :: lePut 2 d.length ++ lePut 2 (d.length ^^^ 0xffff) ++ d
    else 0 :: 0xff :: 0xff :: 0 :: 0 :: d.take 65535 ++ storedBlocks fuel (d.drop 65535)

/-- The whole gzip stream for `d`. -/
def storedOutput (d : Bytes) : Bytes :=
  gzipHeaderBytes ++ storedBlocks (d.length / 65535 + 1) d ++
    lePut 4 (crc32 d) ++ lePut 4 (d.length % 2 ^ 32)

/-- Header check: ten bytes, the magic and the method. -/
def storedNewReader (data : Bytes) : Option GoError :=
  match readFull data 10 with
  | .error err => some err
  | .ok (hdr, _) => if hdr.take 4 = [0x1f, 0x8b, 8, 0] then none else some .gzipHeader

/-- Decode stored blocks from `inp`, appending to `out`: the output, the
error if any, and the input left after the final block. -/
def inflateStored : Nat → Bytes → Bytes → Bytes × Option GoError × Bytes
  | 0, _, out => (out, some .unexpectedEOF, [])
  | _ + 1, [], out => (out, some .unexpectedEOF, [])
  | fuel + 1, h :: rest, out =>
    if h / 2 % 4 ≠ 0 then (out, some .flateCorrupt, rest)
    else
      match readFull rest 4 with
      | .error _ => (out, some .unexpectedEOF, [])
      | .ok (lens, body) =>
        let len := leGet (lens.take 2)
        if leGet (lens.drop 2) ≠ len ^^^ 0xffff then (out, some .flateCorrupt, body)
        else if body.length < len then (out ++ body, some .unexpectedEOF, [])
        else if h % 2 = 1 then (out ++ body.take len, none, body.drop len)
        else inflateStored fuel (body.drop len) (out ++ body.take len)

/-- Decompress the blocks after the header and check the trailer. -/
def storedReadAll (data : Bytes) : Bytes × Option GoError :=
  match inflateStored data.length (data.drop 10) [] with
  | (out, some err, _) => (out, some err)
  | (out, none, rest) =>
    match readFull rest 8 with
    | .error _ => (out, some .unexpectedEOF)
    | .ok (trailer, extra) =>
      if leGet (trailer.take 4) ≠ crc32 out ∨ leGet (trailer.drop 4) ≠ out.length % 2 ^ 32 then
        (out, some .gzipChecksum)
      else if extra = [] then (out, none)
      else (out, some .gzipHeader)

/-- The stored-block codec as a `Gzip`; its writer never fails. -/
def storedGzip : Gzip where
  write := fun _ => none
  close := fun _ => none
  output := storedOutput
  newReader := storedNewReader
  readAll := storedReadAll

/-! ## The canonical encoding as the specification words it -/

/-- The bytes of a Go string (its UTF-8 encoding). -/
def stringBytes (s : String) : Bytes :=
  (s.data.flatMap String.utf8EncodeChar).map UInt8.toNat

/-- The specification's canonical encoding of the ten fields other than
ChunkID: little-endian BirthVersion (8 bytes), POID (16), Offset (8),
TimeStamp (8), OriginalSize (8), CompressedSize (8), OriginalDataFP (16),
CompressedDataFP (16), the CompressionAlg text and the Data bytes. -/
def specCanonicalEncoding (c : Chunk) : Bytes :=
  lePut 8 c.BirthVersion ++ c.POID ++ lePut 8 c.Offset ++
    lePut 8 (c.TimeStamp % 2 ^ 64).toNat ++ lePut 8 c.OriginalSize ++
    lePut 8 c.CompressedSize ++ c.OriginalDataFP ++ c.CompressedDataFP ++
    stringBytes c.CompressionAlg ++ c.Data

/-- The specification's wire layout: the ChunkID, then the canonical encoding. -/
def specWireLayout (c : Chunk) : Bytes := c.ChunkID ++ specCanonicalEncoding c

/-! ## Inputs of chunk_test.go -/

/-- The payload of the tests: the text "This is the original chunk data". -/
def testPayload : Bytes := stringBytes "This is the original chunk data"

/-- The POID of the tests: "example-poid" copied into a zeroed `[16]byte`. -/
def examplePoid : Bytes := stringBytes "example-poid" ++ List.replicate 4 0

/-- A chunk of the test payload built by `NewChunkFromCompressedData` from a
gzip stream of it, at time 1700000000. -/
def testChunk : Chunk :=
  NewChunkFromCompressedData 1700000000 1 examplePoid 0 31 54 testPayload
    (storedOutput testPayload) "gzip"

/-- The zero value `Chunk{}`. -/
def zeroChunk : Chunk :=
  { ChunkID := zero16
    BirthVersion := 0
    POID := zero16
    Offset := 0
    TimeStamp := 0
    OriginalSize := 0
    CompressedSize := 0
    OriginalDataFP := zero16
    CompressedDataFP := zero16
    CompressionAlg := ""
    Data := [] }

/-- A chunk whose ChunkID is the digest of its canonical encoding, the way the
specification derives it. -/
def sealedChunk : Chunk :=
  { testChunk with ChunkID := computeMD5 (specCanonicalEncoding testChunk) }

/-- The serialized form of `sealedChunk` in the specification's wire layout. -/
def sealedBytes : Bytes := specWireLayout sealedChunk

/-- The buffer `sealedBytes` with its first byte changed. -/
def tamperedBytes : Bytes := sealedBytes.set 0 ((sealedBytes.getD 0 0 + 1) % 256)

/-- The number of positions at which two buffers of the same length differ. -/
def diffCount (s t : Bytes) : Nat := ((s.zip t).filter (fun p => p.1 != p.2)).length

/-- The CompressedSize a serialized chunk declares: the little-endian value of
its bytes 64 to 71, after ChunkID (16 bytes), BirthVersion (8), POID (16),
Offset (8), TimeStamp (8) and OriginalSize (8). -/
def declaredCompressedSize (data : Bytes) : Nat := leGet ((data.drop 64).take 8)

/-- The first 110 bytes of `sealedBytes`: the fixed fields, the text "gzip"
and two of the 54 bytes of Data. -/
def truncatedBytes : Bytes := sealedBytes.take 110

/-- A chunk with no original data whose compressed bytes are not a gzip stream. -/
def garbledChunk : Chunk :=
  NewChunkFromCompressedData 1700000000 1 examplePoid 0 0 3 [] [1, 2, 3] "gzip"

deriving instance DecidableEq for Except

/-! ## Persistence: DumpToFile and ReadFromFile

The file system is an explicit state, a list of file names with their
contents in which the first entry of a name counts.  Creating and writing a
file always succeed in this model; reading a name that is absent fails. -/

/-- A file system state. -/
abbrev FileSystem := List (String × Bytes)

/-- Go's `os.ReadFile`. -/
def osReadFile (fs : FileSystem) (filename : String) : Except GoError Bytes :=
  match fs.lookup filename with
  | some fileData => .ok fileData
  | none => .error (.other ("open " ++ filename ++ ": no such file or directory"))

/-- Go's `os.Create`: the named file exists afterwards and is empty. -/
def osCreate (fs : FileSystem) (filename : String) : Except GoError FileSystem :=
  .ok ((filename, []) :: fs.filter (fun entry => entry.1 != filename))

/-- Go's `file.Write` on a file just created: the file holds the bytes. -/
def fileWrite (fs : FileSystem) (filename : String) (data : Bytes) : Except GoError FileSystem :=
  .ok ((filename, data) :: fs.filter (fun entry => entry.1 != filename))

/-- The file system after the call, and the error returned (none for nil). -/
def Chunk.DumpToFile (c : Chunk) (fs : FileSystem) : FileSystem × Option GoError :=
  match c.Serialize with
  | .error err => (fs, some err)
  | .ok serialized =>
    let filename := hexEncode c.ChunkID ++ ".chunk"
    match osCreate fs filename with
    | .error err => (fs, some err)
    | .ok created =>
      match fileWrite created filename serialized with
      | .error err => (created, some err)
      | .ok written => (written, none)

/-- The receiver after the call, and the error returned (none for nil). -/
def Chunk.ReadFromFile (c : Chunk) (fs : FileSystem) (filename : String) :
    Chunk × Option GoError :=
  match osReadFile fs filename with
  | .error err => (c, some err)
  | .ok fileData =>
    match DeserializeChunk fileData with
    | .error err => (c, some err)
    | .ok chunk => (chunk, none)

/-! ## Identity: host identifier and POID (`src/pkg/utils/utils.go`, `pistore_cli/main.go`)

Go strings are byte sequences here; the host name, the interface list and the
absolute path of a file are inputs. -/

/-- What `net.Interfaces` reports of one interface, as far as the code reads it. -/
structure NetInterface where
  /-- The bit mask `Flags`. -/
  flags : Nat
  /-- The field `HardwareAddr`, `none` for nil. -/
  hardwareAddr : Option Bytes
deriving DecidableEq, Repr

/-- Go's `net.FlagLoopback` (`1 << 2`). -/
def flagLoopback : Nat := 4

/-- The code of a hexadecimal digit character. -/
def hexDigitCode (n : Nat) : Nat := (hexDigit n).toNat

/-- Go's `HardwareAddr.String`: two hexadecimal digits per byte, colons
between bytes. -/
def hardwareAddrString : Bytes → Bytes
  | [] => []
  | [b] => [hexDigitCode (b / 16 % 16), hexDigitCode (b % 16)]
  | b :: rest => hexDigitCode (b / 16 % 16) :: hexDigitCode (b % 16) :: 58 :: hardwareAddrString rest

/-- The loop of `getMACAddress`: the address text of the first interface that
is not a loopback and has a hardware address. -/
def firstMACAddress : List NetInterface → Option Bytes
  | [] => none
  | interf :: rest =>
    if interf.flags &&& flagLoopback = 0 then
      match interf.hardwareAddr with
      | some addr => some (hardwareAddrString addr)
      | none => firstMACAddress rest
    else firstMACAddress rest

def getMACAddress (interfaces : Except GoError (List NetInterface)) : Except GoError Bytes :=
  match interfaces with
  | .error err => .error err
  | .ok list =>
    match firstMACAddress list with
    | some mac => .ok mac
    | none => .error (.other "no valid network interface found")

def getHostname (osHostname : Except GoError Bytes) : Except GoError Bytes :=
  match osHostname with
  | .error err => .error err
  | .ok hostname => .ok hostname

/-- The separator of `fmt.Sprintf("%s-%s", hostname, macAddress)` is the byte 45. -/
def GetUniqueID (interfaces : Except GoError (List NetInterface))
    (osHostname : Except GoError Bytes) : Except GoError String :=
  match getMACAddress interfaces with
  | .error err => .error err
  | .ok macAddress =>
    match getHostname osHostname with
    | .error err => .error err
    | .ok hostname =>
      let uniqueString := hostname ++ 45 :: macAddress
      let hash := md5Sum uniqueString
      .ok (hexEncode hash)

/-- The digest `md5.Sum([]byte(uniqueHostID + absPath))` of `processPath`. -/
def POID (uniqueHostID absPath : Bytes) : Bytes := md5Sum (uniqueHostID ++ absPath)

/-- The walk function: the error handed in or the error of `filepath.Abs` is
returned; otherwise the hexadecimal POID is logged (the result here) and nil
is returned. -/
def processPath (uniqueHostID : Bytes) (filepathAbs : Bytes → Except GoError Bytes)
    (path : Bytes) (err : Option GoError) : Except GoError String :=
  match err with
  | some e => .error e
  | none =>
    match filepathAbs path with
    | .error e => .error e
    | .ok absPath => .ok (hexEncode (POID uniqueHostID absPath))

/-- An interface has a hardware address and is not a loopback. -/
def NetInterface.usable (interf : NetInterface) : Bool :=
  interf.flags &&& flagLoopback == 0 && interf.hardwareAddr.isSome

/-- The first of two 128-byte messages with the same MD5 digest (Wang and Yu,
2004). -/
def collisionA : Bytes :=
  [0xd1, 0x31, 0xdd, 0x02, 0xc5, 0xe6, 0xee, 0xc4, 0x69, 0x3d, 0x9a, 0x06, 0x98, 0xaf, 0xf9, 0x5c,
   0x2f, 0xca, 0xb5, 0x87, 0x12, 0x46, 0x7e, 0xab, 0x40, 0x04, 0x58, 0x3e, 0xb8, 0xfb, 0x7f, 0x89,
   0x55, 0xad, 0x34, 0x06, 0x09, 0xf4, 0xb3, 0x02, 0x83, 0xe4, 0x88, 0x83, 0x25, 0x71, 0x41, 0x5a,
   0x08, 0x51, 0x25, 0xe8, 0xf7, 0xcd, 0xc9, 0x9f, 0xd9, 0x1d, 0xbd, 0xf2, 0x80, 0x37, 0x3c, 0x5b,
   0xd8, 0x82, 0x3e, 0x31, 0x56, 0x34, 0x8f, 0x5b, 0xae, 0x6d, 0xac, 0xd4, 0x36, 0xc9, 0x19, 0xc6,
   0xdd, 0x53, 0xe2, 0xb4, 0x87, 0xda, 0x03, 0xfd, 0x02, 0x39, 0x63, 0x06, 0xd2, 0x48, 0xcd, 0xa0,
   0xe9, 0x9f, 0x33, 0x42, 0x0f, 0x57, 0x7e, 0xe8, 0xce, 0x54, 0xb6, 0x70, 0x80, 0xa8, 0x0d, 0x1e,
   0xc6, 0x98, 0x21, 0xbc, 0xb6, 0xa8, 0x83, 0x93, 0x96, 0xf9, 0x65, 0x2b, 0x6f, 0xf7, 0x2a, 0x70]

/-- The second message; it differs from the first in bytes 19, 45, 59, 83,
109 and 123. -/
def collisionB : Bytes :=
  [0xd1, 0x31, 0xdd, 0x02, 0xc5, 0xe6, 0xee, 0xc4, 0x69, 0x3d, 0x9a, 0x06, 0x98, 0xaf, 0xf9, 0x5c,
   0x2f, 0xca, 0xb5, 0x07, 0x12, 0x46, 0x7e, 0xab, 0x40, 0x04, 0x58, 0x3e, 0xb8, 0xfb, 0x7f, 0x89,
   0x55, 0xad, 0x34, 0x06, 0x09, 0xf4, 0xb3, 0x02, 0x83, 0xe4, 0x88, 0x83, 0x25, 0xf1, 0x41, 0x5a,
   0x08, 0x51, 0x25, 0xe8, 0xf7, 0xcd, 0xc9, 0x9f, 0xd9, 0x1d, 0xbd, 0x72, 0x80, 0x37, 0x3c, 0x5b,
   0xd8, 0x82, 0x3e, 0x31, 0x56, 0x34, 0x8f, 0x5b, 0xae, 0x6d, 0xac, 0xd4, 0x36, 0xc9, 0x19, 0xc6,
   0xdd, 0x53, 0xe2, 0x34, 0x87, 0xda, 0x03, 0xfd, 0x02, 0x39, 0x63, 0x06, 0xd2, 0x48, 0xcd, 0xa0,
   0xe9, 0x9f, 0x33, 0x42, 0x0f, 0x57, 0x7e, 0xe8, 0xce, 0x54, 0xb6, 0x70, 0x80, 0x28, 0x0d, 0x1e,
   0xc6, 0x98, 0x21, 0xbc, 0xb6, 0xa8, 0x83, 0x93, 0x96, 0xf9, 0x65, 0xab, 0x6f, 0xf7, 0x2a, 0x70]

/-- A chunk built by `NewChunkFromCompressedData` with a declared compressed
size of 0 for three bytes of data. -/
def mismatchedChunk : Chunk :=
  NewChunkFromCompressedData 1700000000 1 examplePoid 0 0 0 [] [1, 2, 3] "gzip"

/-- A file system holding one file of 200 zero bytes. -/
def sampleFS : FileSystem := [("zeros.chunk", List.replicate 200 0)]

/-- A laptop: a loopback, an interface without address, then two Ethernet
interfaces. -/
def sampleInterfaces : List NetInterface :=
  [⟨0x49, none⟩, ⟨0x13, none⟩, ⟨0x13, some [0x00, 0x1a, 0x2b, 0x3c, 0x4d, 0x5e]⟩,
   ⟨0x13, some [0x02, 0x42, 0xac, 0x11, 0x00, 0x02]⟩]

/-! ## encoding/json, as far as ToJSON and FromJSON use it

`json.Marshal` of a `*Chunk` writes one object with the eleven tagged fields
in declaration order: a `[16]byte` as an array of numbers, an integer in
decimal, the string quoted and escaped (as Go 1.22 escapes it), the `[]byte`
in standard base64.  `json.Unmarshal` checks the whole document first, then
stores the members of an object into the fields they name, the last
occurrence of a name winning; a null leaves a field as it is, except the
slice, which it empties.  `FromJSON` here returns the receiver after a
successful call; when `Unmarshal` returns an error the receiver may have been
partly updated, and that state is not modelled. -/

/-- A parsed JSON value; a number keeps its literal text, a string its
unquoted bytes. -/
inductive JValue where
  | null
  | bool (b : Bool)
  | number (literal : Bytes)
  | string (s : Bytes)
  | array (items : List JValue)
  | object (members : List (Bytes × JValue))

/-- Decimal digits of `n`, most significant first, in front of `acc`. -/
def decimalAux : Nat → Nat → Bytes → Bytes
  | 0, _, acc => acc
  | fuel + 1, n, acc =>
    if n < 10 then (48 + n) :: acc else decimalAux fuel (n / 10) ((48 + n % 10) :: acc)

/-- The decimal text of a number below `10 ^ 20`, which every `uint64` is. -/
def natText (n : Nat) : Bytes := decimalAux 20 n []

/-- The decimal text of an `int64`. -/
def intText (i : Int) : Bytes := if i < 0 then 45 :: natText (-i).toNat else natText i.toNat

/-- Texts separated by commas. -/
def joinComma : List Bytes → Bytes
  | [] => []
  | [t] => t
  | t :: rest => t ++ 44 :: joinComma rest

/-- A byte array as a JSON array of numbers. -/
def byteArrayText (bs : Bytes) : Bytes := 91 :: joinComma (bs.map natText) ++ [93]

/-- The escape of one ASCII byte inside a JSON string, HTML characters
included. -/
def escapeByte (b : Nat) : Bytes :=
  if b = 34 ∨ b = 92 then [92, b]
  else if b = 8 then [92, 98]
  else if b = 12 then [92, 102]
  else if b = 10 then [92, 110]
  else if b = 13 then [92, 114]
  else if b = 9 then [92, 116]
  else if b < 32 ∨ b = 60 ∨ b = 62 ∨ b = 38 then
    [92, 117, 48, 48, hexDigitCode (b / 16), hexDigitCode (b % 16)]
  else [b]

/-- The escaped content of a JSON string; U+2028 and U+2029 are written as
escapes. -/
def escapeText : Bytes → Bytes
  | b0 :: b1 :: b2 :: rest =>
    if b0 = 0xe2 ∧ b1 = 0x80 ∧ (b2 = 0xa8 ∨ b2 = 0xa9) then
      [92, 117, 50, 48, 50, hexDigitCode (b2 % 16)] ++ escapeText rest
    else escapeByte b0 ++ escapeText (b1 :: b2 :: rest)
  | b0 :: rest => escapeByte b0 ++ escapeText rest
  | [] => []

/-- A Go string as a JSON string. -/
def stringText (s : String) : Bytes := 34 :: escapeText (stringBytes s) ++ [34]

/-- The character of a 6-bit value in the standard base64 alphabet. -/
def base64Char (i : Nat) : Nat :=
  if i < 26 then 65 + i
  else if i < 52 then 71 + i
  else if i < 62 then i - 4
  else if i = 62 then 43
  else 47

/-- The 6-bit value of a base64 character. -/
def base64Index (c : Nat) : Option Nat :=
  if 65 ≤ c ∧ c ≤ 90 then some (c - 65)
  else if 97 ≤ c ∧ c ≤ 122 then some (c - 71)
  else if 48 ≤ c ∧ c ≤ 57 then some (c + 4)
  else if c = 43 then some 62
  else if c = 47 then some 63
  else none

/-- Go's `base64.StdEncoding.EncodeToString`. -/
def base64Encode : Bytes → Bytes
  | b0 :: b1 :: b2 :: rest =>
    base64Char (b0 / 4) :: base64Char (b0 % 4 * 16 + b1 / 16) ::
      base64Char (b1 % 16 * 4 + b2 / 64) :: base64Char (b2 % 64) :: base64Encode rest
  | [b0, b1] =>
    [base64Char (b0 / 4), base64Char (b0 % 4 * 16 + b1 / 16), base64Char (b1 % 16 * 4), 61]
  | [b0] => [base64Char (b0 / 4), base64Char (b0 % 4 * 16), 61, 61]
  | [] => []

/-- Decoding of groups of four characters; padding is required and only the
last group may hold it. -/
def base64DecodeGroups : Bytes → Option Bytes
  | [] => some []
  | c0 :: c1 :: c2 :: c3 :: rest =>
    match base64Index c0, base64Index c1 with
    | some i0, some i1 =>
      if c2 = 61 then
        if c3 = 61 ∧ rest = [] then some [i0 * 4 + i1 / 16] else none
      else
        match base64Index c2 with
        | none => none
        | some i2 =>
          if c3 = 61 then
            if rest = [] then some [i0 * 4 + i1 / 16, i1 % 16 * 16 + i2 / 4] else none
          else
            match base64Index c3 with
            | none => none
            | some i3 =>
              match base64DecodeGroups rest with
              | none => none
              | some tail =>
                some ((i0 * 4 + i1 / 16) :: (i1 % 16 * 16 + i2 / 4) :: (i2 % 4 * 64 + i3) :: tail)
    | _, _ => none
  | _ => none

/-- Go's `base64.StdEncoding.Decode`: carriage returns and line feeds are
skipped. -/
def base64Decode (s : Bytes) : Option Bytes :=
  base64DecodeGroups (s.filter fun c => c != 13 && c != 10)

/-- The members `json.Marshal` writes for a chunk: key and value text.  An
empty Data is written as the empty string, as for a non-nil empty slice. -/
def Chunk.jsonMembers (c : Chunk) : List (Bytes × Bytes) :=
  [(stringBytes "chunk_id", byteArrayText c.ChunkID),
   (stringBytes "birth_version", natText c.BirthVersion),
   (stringBytes "poid", byteArrayText c.POID),
   (stringBytes "offset", natText c.Offset),
   (stringBytes "timestamp", intText c.TimeStamp),
   (stringBytes "original_size", natText c.OriginalSize),
   (stringBytes "compressed_size", natText c.CompressedSize),
   (stringBytes "original_data_fp", byteArrayText c.OriginalDataFP),
   (stringBytes "compressed_data_fp", byteArrayText c.CompressedDataFP),
   (stringBytes "compression_alg", stringText c.CompressionAlg),
   (stringBytes "data", 34 :: base64Encode c.Data ++ [34])]

/-- Members as `"key":value`, separated by commas. -/
def renderMembers : List (Bytes × Bytes) → Bytes
  | [] => []
  | [(key, text)] => 34 :: key ++ 34 :: 58 :: text
  | (key, text) :: rest => 34 :: key ++ 34 :: 58 :: text ++ 44 :: renderMembers rest

def Chunk.ToJSON (c : Chunk) : Except GoError Bytes :=
  .ok (123 :: renderMembers c.jsonMembers ++ [125])

/-- Skip JSON white space: space, tab, line feed, carriage return. -/
def skipSpace : Bytes → Bytes
  | [] => []
  | b :: rest => if b = 32 ∨ b = 9 ∨ b = 10 ∨ b = 13 then skipSpace rest else b :: rest

/-- The longest prefix of decimal digits, and the rest. -/
def spanDigits : Bytes → Bytes × Bytes
  | [] => ([], [])
  | b :: rest =>
    if 48 ≤ b ∧ b ≤ 57 then ((b :: (spanDigits rest).1), (spanDigits rest).2)
    else ([], b :: rest)

/-- The integer part of a number: a zero, or a digit from 1 to 9 and digits. -/
def scanInteger : Bytes → Option (Bytes × Bytes)
  | [] => none
  | b :: rest =>
    if b = 48 then some ([48], rest)
    else if 49 ≤ b ∧ b ≤ 57 then some (b :: (spanDigits rest).1, (spanDigits rest).2)
    else none

/-- An optional fraction: a dot and at least one digit. -/
def scanFraction : Bytes → Option (Bytes × Bytes)
  | [] => some ([], [])
  | b :: rest =>
    if b = 46 then
      match spanDigits rest with
      | ([], _) => none
      | (ds, rest2) => some (46 :: ds, rest2)
    else some ([], b :: rest)

/-- An optional exponent: e or E, an optional sign, at least one digit. -/
def scanExponent : Bytes → Option (Bytes × Bytes)
  | [] => some ([], [])
  | b :: rest =>
    if b = 101 ∨ b = 69 then
      match rest with
      | [] => none
      | s :: rest2 =>
        if s = 43 ∨ s = 45 then
          match spanDigits rest2 with
          | ([], _) => none
          | (ds, rest3) => some (b :: s :: ds, rest3)
        else
          match spanDigits rest with
          | ([], _) => none
          | (ds, rest3) => some (b :: ds, rest3)
    else some ([], b :: rest)

/-- A JSON number without sign: its literal text and the rest. -/
def scanUnsigned (inp : Bytes) : Option (Bytes × Bytes) :=
  match scanInteger inp with
  | none => none
  | some (int, rest1) =>
    match scanFraction rest1 with
    | none => none
    | some (frac, rest2) =>
      match scanExponent rest2 with
      | none => none
      | some (exp, rest3) => some (int ++ frac ++ exp, rest3)

/-- A JSON number with its optional minus sign. -/
def scanNumber : Bytes → Option (Bytes × Bytes)
  | [] => none
  | b :: rest =>
    if b = 45 then
      match scanUnsigned rest with
      | some (literal, rest2) => some (45 :: literal, rest2)
      | none => none
    else scanUnsigned (b :: rest)

/-- The value of a hexadecimal digit character. -/
def hexValue (c : Nat) : Option Nat :=
  if 48 ≤ c ∧ c ≤ 57 then some (c - 48)
  else if 97 ≤ c ∧ c ≤ 102 then some (c - 87)
  else if 65 ≤ c ∧ c ≤ 70 then some (c - 55)
  else none

/-- The value of four hexadecimal digits at the head of the input. -/
def hex4 : Bytes → Option Nat
  | a :: b :: c :: d :: _ =>
    match hexValue a, hexValue b, hexValue c, hexValue d with
    | some x, some y, some z, some w => some (((x * 16 + y) * 16 + z) * 16 + w)
    | _, _, _, _ => none
  | _ => none

/-- Go's `utf8.EncodeRune`. -/
def utf8Encode (cp : Nat) : Bytes :=
  if cp < 0x80 then [cp]
  else if cp < 0x800 then [0xc0 + cp / 64, 0x80 + cp % 64]
  else if cp < 0x10000 then [0xe0 + cp / 4096, 0x80 + cp / 64 % 64, 0x80 + cp % 64]
  else [0xf0 + cp / 262144, 0x80 + cp / 4096 % 64, 0x80 + cp / 64 % 64, 0x80 + cp % 64]

/-- A continuation byte. -/
def isCont (b : Nat) : Bool := 0x80 ≤ b && b ≤ 0xbf

/-- Go's `utf8.DecodeRune`: the code point at the head of the input and its
size; U+FFFD and size 1 for an invalid encoding. -/
def decodeRune : Bytes → Nat × Nat
  | [] => (0xfffd, 0)
  | b0 :: rest =>
    if b0 < 0x80 then (b0, 1)
    else if 0xc2 ≤ b0 ∧ b0 ≤ 0xdf then
      match rest with
      | b1 :: _ => if isCont b1 then ((b0 - 0xc0) * 64 + (b1 - 0x80), 2) else (0xfffd, 1)
      | _ => (0xfffd, 1)
    else if 0xe0 ≤ b0 ∧ b0 ≤ 0xef then
      match rest with
      | b1 :: b2 :: _ =>
        if (if b0 = 0xe0 then 0xa0 else 0x80) ≤ b1 ∧ b1 ≤ (if b0 = 0xed then 0x9f else 0xbf) ∧
            isCont b2 then
          (((b0 - 0xe0) * 64 + (b1 - 0x80)) * 64 + (b2 - 0x80), 3)
        else (0xfffd, 1)
      | _ => (0xfffd, 1)
    else if 0xf0 ≤ b0 ∧ b0 ≤ 0xf4 then
      match rest with
      | b1 :: b2 :: b3 :: _ =>
        if (if b0 = 0xf0 then 0x90 else 0x80) ≤ b1 ∧ b1 ≤ (if b0 = 0xf4 then 0x8f else 0xbf) ∧
            isCont b2 ∧ isCont b3 then
          ((((b0 - 0xf0) * 64 + (b1 - 0x80)) * 64 + (b2 - 0x80)) * 64 + (b3 - 0x80), 4)
        else (0xfffd, 1)
      | _ => (0xfffd, 1)
    else (0xfffd, 1)

/-- The characters of a byte string, an invalid byte giving U+FFFD. -/
def utf8Chars : Nat → Bytes → List Char
  | 0, _ => []
  | _ + 1, [] => []
  | fuel + 1, b :: rest =>
    Char.ofNat (decodeRune (b :: rest)).1 ::
      utf8Chars fuel (rest.drop ((decodeRune (b :: rest)).2 - 1))

/-- A Go string as a Lean string. -/
def bytesToString (bs : Bytes) : String := String.mk (utf8Chars bs.length bs)

/-- The byte a two-character escape stands for. -/
def simpleEscape (e : Nat) : Option Nat :=
  if e = 34 ∨ e = 92 ∨ e = 47 then some e
  else if e = 98 then some 8
  else if e = 102 then some 12
  else if e = 110 then some 10
  else if e = 114 then some 13
  else if e = 116 then some 9
  else none

/-- The code point of a surrogate pair whose first half `hi` was just read,
when the input goes on with the escape of a second half. -/
def surrogatePair (hi : Nat) : Bytes → Option Nat
  | 92 :: 117 :: rest =>
    match hex4 rest with
    | some lo =>
      if 0xd800 ≤ hi ∧ hi < 0xdc00 ∧ 0xdc00 ≤ lo ∧ lo < 0xe000 then
        some ((hi - 0xd800) * 1024 + (lo - 0xdc00) + 0x10000)
      else none
    | none => none
  | _ => none

/-- The content of a JSON string after its opening quote, unquoted, and the
input after its closing quote.  A control character, an unknown escape and
the end of the input are syntax errors. -/
def scanString : Nat → Bytes → Bytes → Option (Bytes × Bytes)
  | 0, _, _ => none
  | _ + 1, [], _ => none
  | fuel + 1, b :: rest, acc =>
    if b = 34 then some (acc, rest)
    else if b = 92 then
      match rest with
      | [] => none
      | e :: rest2 =>
        if e = 117 then
          match hex4 rest2 with
          | none => none
          | some rr =>
            if 0xd800 ≤ rr ∧ rr < 0xe000 then
              match surrogatePair rr (rest2.drop 4) with
              | some cp => scanString fuel (rest2.drop 10) (acc ++ utf8Encode cp)
              | none => scanString fuel (rest2.drop 4) (acc ++ utf8Encode 0xfffd)
            else scanString fuel (rest2.drop 4) (acc ++ utf8Encode rr)
        else
          match simpleEscape e with
          | some x => scanString fuel rest2 (acc ++ [x])
          | none => none
    else if b < 32 then none
    else if b < 128 then scanString fuel rest (acc ++ [b])
    else
      scanString fuel (rest.drop ((decodeRune (b :: rest)).2 - 1))
        (acc ++ utf8Encode (decodeRune (b :: rest)).1)

mutual

/-- One JSON value at the head of the input (no white space before it). -/
def parseValue : Nat → Bytes → Option (JValue × Bytes)
  | 0, _ => none
  | _ + 1, [] => none
  | fuel + 1, b :: rest =>
    if b = 123 then
      if (skipSpace rest).head? = some 125 then some (.object [], (skipSpace rest).tail)
      else
        match parseMembers fuel rest with
        | some (members, rest2) => some (.object members, rest2)
        | none => none
    else if b = 91 then
      if (skipSpace rest).head? = some 93 then some (.array [], (skipSpace rest).tail)
      else
        match parseItems fuel rest with
        | some (items, rest2) => some (.array items, rest2)
        | none => none
    else if b = 34 then
      match scanString (rest.length + 1) rest [] with
      | some (s, rest2) => some (.string s, rest2)
      | none => none
    else if b = 116 then
      if rest.take 3 = [114, 117, 101] then some (.bool true, rest.drop 3) else none
    else if b = 102 then
      if rest.take 4 = [97, 108, 115, 101] then some (.bool false, rest.drop 4) else none
    else if b = 110 then
      if rest.take 3 = [117, 108, 108] then some (.null, rest.drop 3) else none
    else
      match scanNumber (b :: rest) with
      | some (literal, rest2) => some (.number literal, rest2)
      | none => none

/-- The items of a non-empty array and its closing bracket. -/
def parseItems : Nat → Bytes → Option (List JValue × Bytes)
  | 0, _ => none
  | fuel + 1, inp =>
    match parseValue fuel (skipSpace inp) with
    | none => none
    | some (item, rest) =>
      match skipSpace rest with
      | [] => none
      | b :: rest2 =>
        if b = 44 then
          match parseItems fuel rest2 with
          | some (items, rest3) => some (item :: items, rest3)
          | none => none
        else if b = 93 then some ([item], rest2)
        else none

/-- The members of a non-empty object and its closing brace. -/
def parseMembers : Nat → Bytes → Option (List (Bytes × JValue) × Bytes)
  | 0, _ => none
  | fuel + 1, inp =>
    match skipSpace inp with
    | [] => none
    | q :: rest =>
      if q = 34 then
        match scanString (rest.length + 1) rest [] with
        | none => none
        | some (key, rest2) =>
          match skipSpace rest2 with
          | [] => none
          | colon :: rest3 =>
            if colon = 58 then
              match parseValue fuel (skipSpace rest3) with
              | none => none
              | some (value, rest4) =>
                match skipSpace rest4 with
                | [] => none
                | b :: rest5 =>
                  if b = 44 then
                    match parseMembers fuel rest5 with
                    | some (members, rest6) => some ((key, value) :: members, rest6)
                    | none => none
                  else if b = 125 then some ([(key, value)], rest5)
                  else none
            else none
      else none

end

/-- A whole document: one value, white space around it allowed. -/
def parseDocument (data : Bytes) : Option JValue :=
  match parseValue (data.length + 1) (skipSpace data) with
  | some (value, rest) => if skipSpace rest = [] then some value else none
  | none => none

/-- The value of a string of decimal digits. -/
def digitsValue (ds : Bytes) : Nat := ds.foldl (fun acc d => 10 * acc + (d - 48)) 0

/-- Go's `strconv.ParseUint(s, 10, bits)`: digits only, the value below
`2 ^ bits`. -/
def parseUint (s : Bytes) (bits : Nat) : Option Nat :=
  if s ≠ [] ∧ s.all (fun d => 48 ≤ d && d ≤ 57) ∧ digitsValue s < 2 ^ bits then
    some (digitsValue s)
  else none

/-- Go's `strconv.ParseInt(s, 10, 64)`. -/
def parseInt64 : Bytes → Option Int
  | [] => none
  | b :: ds =>
    if b = 45 then
      if ds ≠ [] ∧ ds.all (fun d => 48 ≤ d && d ≤ 57) ∧ digitsValue ds ≤ 2 ^ 63 then
        some (-(digitsValue ds : Int))
      else none
    else if b = 43 then
      if ds ≠ [] ∧ ds.all (fun d => 48 ≤ d && d ≤ 57) ∧ digitsValue ds < 2 ^ 63 then
        some (digitsValue ds : Int)
      else none
    else if (b :: ds).all (fun d => 48 ≤ d && d ≤ 57) ∧ digitsValue (b :: ds) < 2 ^ 63 then
      some (digitsValue (b :: ds) : Int)
    else none

/-- The error of `Unmarshal` for a value that does not fit its field. -/
def jsonTypeError : GoError := .other "json: cannot unmarshal value into Go struct field"

/-- The fields of `Chunk`. -/
inductive Field where
  | chunkID
  | birthVersion
  | poid
  | offset
  | timeStamp
  | originalSize
  | compressedSize
  | originalDataFP
  | compressedDataFP
  | compressionAlg
  | data
deriving DecidableEq, Repr

/-- The struct tags. -/
def Field.jsonName : Field → Bytes
  | .chunkID => stringBytes "chunk_id"
  | .birthVersion => stringBytes "birth_version"
  | .poid => stringBytes "poid"
  | .offset => stringBytes "offset"
  | .timeStamp => stringBytes "timestamp"
  | .originalSize => stringBytes "original_size"
  | .compressedSize => stringBytes "compressed_size"
  | .originalDataFP => stringBytes "original_data_fp"
  | .compressedDataFP => stringBytes "compressed_data_fp"
  | .compressionAlg => stringBytes "compression_alg"
  | .data => stringBytes "data"

/-- The fields in declaration order. -/
def Field.all : List Field :=
  [.chunkID, .birthVersion, .poid, .offset, .timeStamp, .originalSize, .compressedSize,
   .originalDataFP, .compressedDataFP, .compressionAlg, .data]

/-- Case folding of a key: ASCII letters to upper case, the Kelvin sign
(U+212A) to K and the long s (U+017F) to S. -/
def foldKey : Bytes → Bytes
  | 0xe2 :: 0x84 :: 0xaa :: rest => 75 :: foldKey rest
  | 0xc5 :: 0xbf :: rest => 83 :: foldKey rest
  | b :: rest => (if 97 ≤ b ∧ b ≤ 122 then b - 32 else b) :: foldKey rest
  | [] => []

/-- The field a key names: the one with that tag, else the first one whose
tag equals the key under case folding. -/
def findField (key : Bytes) : Option Field :=
  match Field.all.find? (fun f => f.jsonName == key) with
  | some f => some f
  | none => Field.all.find? (fun f => foldKey f.jsonName == foldKey key)

/-- One element of an array decoded into a `uint8` that held `old`. -/
def decodeByte (old : Nat) : JValue → Except GoError Nat
  | .null => .ok old
  | .number literal =>
    match parseUint literal 8 with
    | some b => .ok b
    | none => .error jsonTypeError
  | _ => .error jsonTypeError

/-- A JSON array decoded into the first `n` elements of a byte array holding
`old`: items past the end of the array are skipped. -/
def decodeBytes : Nat → Bytes → List JValue → Except GoError Bytes
  | 0, _, _ => .ok []
  | _ + 1, _, [] => .ok []
  | n + 1, old, item :: items =>
    match decodeByte (old.headD 0) item with
    | .error err => .error err
    | .ok b =>
      match decodeBytes n old.tail items with
      | .error err => .error err
      | .ok bs => .ok (b :: bs)

/-- A JSON value decoded into a `[16]byte`: elements the array does not
reach are zeroed. -/
def decodeByteArray16 (old : Bytes) : JValue → Except GoError Bytes
  | .null => .ok old
  | .array items =>
    match decodeBytes 16 old items with
    | .error err => .error err
    | .ok bs => .ok (bs ++ List.replicate (16 - bs.length) 0)
  | _ => .error jsonTypeError

/-- A JSON value decoded into a `uint64`. -/
def decodeUint64 (old : Nat) : JValue → Except GoError Nat
  | .null => .ok old
  | .number literal =>
    match parseUint literal 64 with
    | some n => .ok n
    | none => .error jsonTypeError
  | _ => .error jsonTypeError

/-- A JSON value decoded into an `int64`. -/
def decodeInt64 (old : Int) : JValue → Except GoError Int
  | .null => .ok old
  | .number literal =>
    match parseInt64 literal with
    | some n => .ok n
    | none => .error jsonTypeError
  | _ => .error jsonTypeError

/-- A JSON value decoded into a `string`. -/
def decodeString (old : String) : JValue → Except GoError String
  | .null => .ok old
  | .string s => .ok (bytesToString s)
  | _ => .error jsonTypeError

/-- A JSON value decoded into a `[]byte`: a string holds base64, an array
holds the bytes (past the old length a null leaves a zero), a null empties
the slice. -/
def decodeByteSlice (old : Bytes) : JValue → Except GoError Bytes
  | .null => .ok []
  | .string s =>
    match base64Decode s with
    | some bs => .ok bs
    | none => .error (.other "illegal base64 data")
  | .array items => decodeBytes items.length old items
  | _ => .error jsonTypeError

/-- Store a value into a field. -/
def setField (c : Chunk) (f : Field) (v : JValue) : Except GoError Chunk :=
  match f with
  | .chunkID => (decodeByteArray16 c.ChunkID v).map fun x => { c with ChunkID := x }
  | .birthVersion => (decodeUint64 c.BirthVersion v).map fun x => { c with BirthVersion := x }
  | .poid => (decodeByteArray16 c.POID v).map fun x => { c with POID := x }
  | .offset => (decodeUint64 c.Offset v).map fun x => { c with Offset := x }
  | .timeStamp => (decodeInt64 c.TimeStamp v).map fun x => { c with TimeStamp := x }
  | .originalSize => (decodeUint64 c.OriginalSize v).map fun x => { c with OriginalSize := x }
  | .compressedSize =>
    (decodeUint64 c.CompressedSize v).map fun x => { c with CompressedSize := x }
  | .originalDataFP =>
    (decodeByteArray16 c.OriginalDataFP v).map fun x => { c with OriginalDataFP := x }
  | .compressedDataFP =>
    (decodeByteArray16 c.CompressedDataFP v).map fun x => { c with CompressedDataFP := x }
  | .compressionAlg =>
    (decodeString c.CompressionAlg v).map fun x => { c with CompressionAlg := x }
  | .data => (decodeByteSlice c.Data v).map fun x => { c with Data := x }

/-- Store the members of an object, in order; a key that names no field is
skipped. -/
def setMembers (c : Chunk) : List (Bytes × JValue) → Except GoError Chunk
  | [] => .ok c
  | (key, value) :: rest =>
    match findField key with
    | none => setMembers c rest
    | some f =>
      match setField c f value with
      | .error err => .error err
      | .ok c2 => setMembers c2 rest

/-- The receiver after a successful `json.Unmarshal(data, c)`, or the error. -/
def Chunk.FromJSON (c : Chunk) (data : Bytes) : Except GoError Chunk :=
  match parseDocument data with
  | none => .error (.other "json: syntax error")
  | some .null => .ok c
  | some (.object members) => setMembers c members
  | some _ => .error jsonTypeError

/-! ## Predicates for the JSON round trip -/

/-- A decimal digit character. -/
def isDigit (b : Nat) : Bool := 48 ≤ b && b ≤ 57

/-- A character that can follow a value inside an array or an object. -/
def isDelimiter (c : Nat) : Bool := c == 44 || c == 93 || c == 125

/-- JSON white space. -/
def isSpace (b : Nat) : Bool := b == 32 || b == 9 || b == 10 || b == 13

/-- A byte that stands for itself inside a JSON string. -/
def isPlain (b : Nat) : Bool := 32 ≤ b && b < 128 && b != 34 && b != 92

/-- The text is one JSON value: followed by a delimiter it parses to `v`,
whatever comes after, with `need` units of fuel; and it does not start with
white space. -/
def Renders (text : Bytes) (v : JValue) (need : Nat) : Prop :=
  (∃ b t, text = b :: t ∧ isSpace b = false) ∧
  ∀ fuel c rest, need ≤ fuel → isDelimiter c = true →
    parseValue fuel (text ++ c :: rest) = some (v, c :: rest)

/-- A member with its key, its text and the value the text stands for: the
key and the text. -/
def memberText (m : Bytes × Bytes × JValue) : Bytes × Bytes := (m.1, m.2.1)

/-- A member with its key, its text and the value the text stands for: the
key and the value. -/
def memberValue (m : Bytes × Bytes × JValue) : Bytes × JValue := (m.1, m.2.2)

/-- A JSON document that sets the field CompressedSize only. -/
def sizeDocument : Bytes := stringBytes "\x7b\"compressed_size\":5\x7d"

/-! ## The library models on published test vectors -/

set_option maxRecDepth 100000 in
/-- The MD5 test suite of RFC 1321, appendix A.5 (one-block and two-block
messages). -/
theorem md5Sum_rfc1321 :
    hexEncode (md5Sum []) = "d41d8cd98f00b204e9800998ecf8427e" ∧
    hexEncode (md5Sum (stringBytes "a")) = "0cc175b9c0f1b6a831c399e269772661" ∧
    hexEncode (md5Sum (stringBytes "abc")) = "900150983cd24fb0d6963f7d28e17f72" ∧
    hexEncode (md5Sum (stringBytes "message digest")) = "f96b697d7cb7938d525a2f31aaf161d0" ∧
    hexEncode (md5Sum (stringBytes "12345678901234567890123456789012345678901234567890123456789012345678901234567890")) = "57edf4a22be3c955ac49da2e2107b67a" := by
  decide

set_option maxRecDepth 100000 in
/-- The CRC-32 check value, and the stored-block codec decoding its own
output on the test payload. -/
theorem crc32_check :
    crc32 (stringBytes "123456789") = 0xcbf43926 ∧
    decompressData storedGzip (storedOutput testPayload) = (testPayload, none) := by
  decide

/-! ## Serialization stops at the CompressionAlg field -/

theorem serializeWithoutChunkID_error (c : Chunk) :
    c.SerializeWithoutChunkID = .error (.binaryWrite "string") := rfl

theorem serialize_error (c : Chunk) : c.Serialize = .error (.binaryWrite "string") := rfl

theorem serializedOrNil_nil (c : Chunk) : serializedOrNil c = [] := rfl

theorem newChunkFromCompressedData_chunkID (now : Int) (v : Nat) (poid : Bytes)
    (off osz csz : Nat) (od cd : Bytes) (alg : String) :
    (NewChunkFromCompressedData now v poid off osz csz od cd alg).ChunkID = computeMD5 [] := rfl

theorem newChunkFromOriginalData_eq (gz : Gzip) (now : Int) (v : Nat) (poid : Bytes) (off : Nat)
    (d z : Bytes) (hz : compressData gz d = .ok z) :
    NewChunkFromOriginalData gz now v poid off d = .ok
      { ChunkID := computeMD5 []
        BirthVersion := v
        POID := poid
        Offset := off
        TimeStamp := now
        OriginalSize := d.length
        CompressedSize := z.length
        OriginalDataFP := computeMD5 d
        CompressedDataFP := computeMD5 z
        CompressionAlg := "gzip"
        Data := z } := by
  simp [NewChunkFromOriginalData, hz, serializedOrNil_nil]

theorem newChunkFromOriginalData_error (gz : Gzip) (now : Int) (v : Nat) (poid : Bytes)
    (off : Nat) (d : Bytes) (err : GoError) (hz : compressData gz d = .error err) :
    NewChunkFromOriginalData gz now v poid off d = .error err := by
  simp [NewChunkFromOriginalData, hz]

set_option maxRecDepth 100000 in
theorem testPayload_length : testPayload.length = 31 ∧ (storedOutput testPayload).length = 54 := by
  decide

set_option maxRecDepth 100000 in
/-- The concrete chunks and buffers are values the Go types hold. -/
theorem inputs_wellTyped :
    testChunk.wellTyped = true ∧ zeroChunk.wellTyped = true ∧ sealedChunk.wellTyped = true ∧
    garbledChunk.wellTyped = true ∧ sealedBytes.all (· < 256) = true ∧
    tamperedBytes.all (· < 256) = true ∧ sealedBytes.length = 162 := by
  decide

/-- C1 (the code fails it): on the input of TestSerialization, birth version
1, POID "example-poid", offset 0 and the payload "This is the original chunk
data", whenever `NewChunkFromOriginalData` returns a chunk, `Serialize` on it
returns the error of `binary.Write` for the string field, so there are no
bytes to deserialize; the constructor fails only when compression does. -/
theorem roundtrip_serialize_fails (gz : Gzip) (now : Int) :
    match NewChunkFromOriginalData gz now 1 examplePoid 0 testPayload with
    | .ok c => c.Serialize = .error (.binaryWrite "string")
    | .error err => compressData gz testPayload = .error err := by
  cases hz : compressData gz testPayload with
  | error err => simp [newChunkFromOriginalData_error gz now 1 examplePoid 0 testPayload err hz]
  | ok z =>
    simp [newChunkFromOriginalData_eq gz now 1 examplePoid 0 testPayload z hz, serialize_error]

set_option maxRecDepth 100000 in
/-- C2 (the code fails it): the ChunkID of the test chunk is the MD5 digest
of the empty byte sequence, not the digest of the canonical encoding of its
other ten fields. -/
theorem chunkID_not_digest_of_encoding :
    testChunk.ChunkID = computeMD5 [] ∧
    testChunk.ChunkID ≠ computeMD5 (specCanonicalEncoding testChunk) := by
  decide

/-- C3 (the code fails it): `Serialize` and `SerializeWithoutChunkID` return
the error of `binary.Write` for the string field, and no bytes, on the test
chunk and on the zero chunk, whose CompressionAlg is the empty string. -/
theorem serialize_layout_fails :
    testChunk.Serialize = .error (.binaryWrite "string") ∧
    testChunk.SerializeWithoutChunkID = .error (.binaryWrite "string") ∧
    zeroChunk.Serialize = .error (.binaryWrite "string") ∧
    zeroChunk.SerializeWithoutChunkID = .error (.binaryWrite "string") :=
  ⟨rfl, rfl, rfl, rfl⟩

/-! ## Verification predicates -/

theorem verifyChunkID_of_le (c : Chunk) (data : Bytes) (h : 16 ≤ data.length) :
    c.VerifyChunkID data = .ok (c.ChunkID == computeMD5 (data.drop 16)) := by
  simp [Chunk.VerifyChunkID, h]

theorem verifyChunkID_ok_true (c : Chunk) (data : Bytes) (h : c.VerifyChunkID data = .ok true) :
    16 ≤ data.length ∧ c.ChunkID = computeMD5 (data.drop 16) := by
  unfold Chunk.VerifyChunkID at h
  split at h
  · rename_i hlen
    refine ⟨hlen, ?_⟩
    have hb : (c.ChunkID == computeMD5 (data.drop 16)) = true := by
      injection h
    exact eq_of_beq hb
  · cases h

set_option maxRecDepth 100000 in
/-- C4, counterexample: `sealedBytes` is the serialized form of `sealedChunk`
and passes `VerifyChunkID`; `tamperedBytes` has the same length and differs
from it in exactly one byte, the first; `VerifyChunkID` still returns true. -/
theorem tamper_in_chunkID_bytes_undetected :
    sealedChunk.VerifyChunkID sealedBytes = .ok true ∧
    tamperedBytes.length = sealedBytes.length ∧
    diffCount sealedBytes tamperedBytes = 1 ∧
    sealedChunk.VerifyChunkID tamperedBytes = .ok true := by
  decide

/-- C4, amended: when `c.VerifyChunkID s` is true and byte `i` of `s` is
replaced by any value `b`, the call neither panics nor looks at the first 16
bytes: for `i < 16` it still returns true, and for `16 ≤ i` it returns false
exactly when the MD5 digest of the bytes from position 16 on has changed. -/
theorem verifyChunkID_after_byte_change (c : Chunk) (s : Bytes) (i b : Nat)
    (hs : c.VerifyChunkID s = .ok true) :
    (i < 16 → c.VerifyChunkID (s.set i b) = .ok true) ∧
    (16 ≤ i → (c.VerifyChunkID (s.set i b) = .ok false ↔
      computeMD5 ((s.set i b).drop 16) ≠ computeMD5 (s.drop 16))) := by
  obtain ⟨hlen, hid⟩ := verifyChunkID_ok_true c s hs
  have hlen2 : 16 ≤ (s.set i b).length := by simpa using hlen
  rw [verifyChunkID_of_le c _ hlen2]
  constructor
  · intro hi
    rw [List.drop_set_of_lt b s hi, hid]
    simp
  · intro _
    rw [hid]
    constructor
    · intro h heq
      have hb : (computeMD5 (s.drop 16) == computeMD5 ((s.set i b).drop 16)) = false := by
        injection h
      rw [heq] at hb
      simp at hb
    · intro hne
      have hb : (computeMD5 (s.drop 16) == computeMD5 ((s.set i b).drop 16)) = false := by
        apply beq_false_of_ne
        exact fun h => hne h.symm
      rw [hb]

set_option maxRecDepth 100000 in
/-- C4, witness: the amended statement at `sealedChunk`, `sealedBytes` and a
change of byte 0. -/
theorem verifyChunkID_after_byte_change_witness :
    sealedChunk.VerifyChunkID sealedBytes = .ok true ∧
    ((0 < 16 → sealedChunk.VerifyChunkID (sealedBytes.set 0 255) = .ok true) ∧
     (16 ≤ 0 → (sealedChunk.VerifyChunkID (sealedBytes.set 0 255) = .ok false ↔
       computeMD5 ((sealedBytes.set 0 255).drop 16) ≠ computeMD5 (sealedBytes.drop 16)))) :=
  ⟨by decide, verifyChunkID_after_byte_change sealedChunk sealedBytes 0 255 (by decide)⟩

/-- C5 (the code fails it): when decompression of the compressed bytes `z`
returns an error and no data, the chunk built by `NewChunkFromCompressedData`
from an empty original payload and `z` passes `VerifyOriginalDataChecksum`:
the error is dropped and the digest of the nil slice is compared. -/
theorem verifyOriginal_true_on_decompression_error (gz : Gzip) (now : Int) (v : Nat)
    (poid : Bytes) (off osz csz : Nat) (z : Bytes) (alg : String) (err : GoError)
    (hz : decompressData gz z = ([], some err)) :
    (NewChunkFromCompressedData now v poid off osz csz [] z alg).VerifyOriginalDataChecksum gz
      = true := by
  simp [Chunk.VerifyOriginalDataChecksum, NewChunkFromCompressedData, hz]

/-- C5, witness: the bytes 1, 2, 3 are no gzip stream (the header read ends
early), and `garbledChunk`, built from them, passes the check. -/
theorem verifyOriginal_true_on_decompression_error_witness :
    decompressData storedGzip [1, 2, 3] = ([], some .unexpectedEOF) ∧
    garbledChunk.VerifyOriginalDataChecksum storedGzip = true :=
  ⟨by decide, verifyOriginal_true_on_decompression_error storedGzip 1700000000 1 examplePoid
    0 0 3 [1, 2, 3] "gzip" .unexpectedEOF (by decide)⟩

/-- C6 (the code fails it): on a buffer shorter than 16 bytes `VerifyChunkID`
panics, the slice expression `data[16:]` being out of range; it returns no
boolean. -/
theorem verifyChunkID_panics_on_short_buffer (c : Chunk) (data : Bytes)
    (h : data.length < 16) :
    c.VerifyChunkID data = .error (.sliceBounds 16 data.length) := by
  simp [Chunk.VerifyChunkID, Nat.not_le.mpr h]

/-- C6, witness: the empty buffer and a 15-byte buffer. -/
theorem verifyChunkID_panics_on_short_buffer_witness :
    zeroChunk.VerifyChunkID [] = .error (.sliceBounds 16 0) ∧
    sealedChunk.VerifyChunkID (sealedBytes.take 15) =
      .error (.sliceBounds 16 (sealedBytes.take 15).length) :=
  ⟨verifyChunkID_panics_on_short_buffer zeroChunk [] (by decide),
   verifyChunkID_panics_on_short_buffer sealedChunk (sealedBytes.take 15) (by decide)⟩

/-! ## Deserialization stops at the CompressionAlg field -/

theorem binaryRead_of_le (buf : Bytes) (t : GoType) (n : Nat) (ht : t.dataSize = some n)
    (h : n ≤ buf.length) : binaryRead buf t = .ok (t.get (buf.take n), buf.drop n) := by
  simp [binaryRead, ht, readFull, h]

theorem binaryRead_of_lt (buf : Bytes) (t : GoType) (n : Nat) (ht : t.dataSize = some n)
    (h : buf.length < n) :
    binaryRead buf t = .error .eof ∨ binaryRead buf t = .error .unexpectedEOF := by
  have hn : n ≠ 0 := by omega
  by_cases h0 : buf.length = 0
  · left; simp [binaryRead, ht, readFull, Nat.not_le.mpr h, h0, hn]
  · right; simp [binaryRead, ht, readFull, Nat.not_le.mpr h, h0]

/-- With the nine fixed-width fields present, the read of CompressionAlg into
a `*string` is reached and rejected. -/
theorem deserializeChunk_of_le (data : Bytes) (h : 104 ≤ data.length) :
    DeserializeChunk data = .error (.binaryRead "*string") := by
  unfold DeserializeChunk
  simp only [bind, Except.bind]
  rw [binaryRead_of_le data .byteArray16 16 rfl (by omega)]
  simp only []
  rw [binaryRead_of_le (data.drop 16) .uint64 8 rfl (by simp only [List.length_drop]; omega)]
  simp only []
  rw [binaryRead_of_le ((data.drop 16).drop 8) .byteArray16 16 rfl (by simp only [List.length_drop]; omega)]
  simp only []
  rw [binaryRead_of_le (((data.drop 16).drop 8).drop 16) .uint64 8 rfl (by simp only [List.length_drop]; omega)]
  simp only []
  rw [binaryRead_of_le ((((data.drop 16).drop 8).drop 16).drop 8) .int64 8 rfl (by simp only [List.length_drop]; omega)]
  simp only []
  rw [binaryRead_of_le (((((data.drop 16).drop 8).drop 16).drop 8).drop 8) .uint64 8 rfl (by simp only [List.length_drop]; omega)]
  simp only []
  rw [binaryRead_of_le ((((((data.drop 16).drop 8).drop 16).drop 8).drop 8).drop 8) .uint64 8 rfl (by simp only [List.length_drop]; omega)]
  simp only []
  rw [binaryRead_of_le (((((((data.drop 16).drop 8).drop 16).drop 8).drop 8).drop 8).drop 8) .byteArray16 16 rfl (by simp only [List.length_drop]; omega)]
  simp only []
  rw [binaryRead_of_le ((((((((data.drop 16).drop 8).drop 16).drop 8).drop 8).drop 8).drop 8).drop 16) .byteArray16 16 rfl (by simp only [List.length_drop]; omega)]
  simp only []
  rfl

/-- With fewer than 104 bytes, the read of one of the nine fixed-width fields
runs out of input. -/
theorem deserializeChunk_of_lt (data : Bytes) (h : data.length < 104) :
    DeserializeChunk data = .error .eof ∨ DeserializeChunk data = .error .unexpectedEOF := by
  unfold DeserializeChunk
  simp only [bind, Except.bind]
  by_cases h0 : 16 ≤ data.length
  swap
  · rcases binaryRead_of_lt data .byteArray16 16 rfl (by omega) with e | e <;> rw [e] <;> simp
  rw [binaryRead_of_le data .byteArray16 16 rfl h0]
  simp only []
  by_cases h1 : 8 ≤ (data.drop 16).length
  swap
  · rcases binaryRead_of_lt (data.drop 16) .uint64 8 rfl (by omega) with e | e <;> rw [e] <;> simp
  rw [binaryRead_of_le (data.drop 16) .uint64 8 rfl h1]
  simp only []
  by_cases h2 : 16 ≤ ((data.drop 16).drop 8).length
  swap
  · rcases binaryRead_of_lt ((data.drop 16).drop 8) .byteArray16 16 rfl (by omega) with e | e <;> rw [e] <;> simp
  rw [binaryRead_of_le ((data.drop 16).drop 8) .byteArray16 16 rfl h2]
  simp only []
  by_cases h3 : 8 ≤ (((data.drop 16).drop 8).drop 16).length
  swap
  · rcases binaryRead_of_lt (((data.drop 16).drop 8).drop 16) .uint64 8 rfl (by omega) with e | e <;> rw [e] <;> simp
  rw [binaryRead_of_le (((data.drop 16).drop 8).drop 16) .uint64 8 rfl h3]
  simp only []
  by_cases h4 : 8 ≤ ((((data.drop 16).drop 8).drop 16).drop 8).length
  swap
  · rcases binaryRead_of_lt ((((data.drop 16).drop 8).drop 16).drop 8) .int64 8 rfl (by omega) with e | e <;> rw [e] <;> simp
  rw [binaryRead_of_le ((((data.drop 16).drop 8).drop 16).drop 8) .int64 8 rfl h4]
  simp only []
  by_cases h5 : 8 ≤ (((((data.drop 16).drop 8).drop 16).drop 8).drop 8).length
  swap
  · rcases binaryRead_of_lt (((((data.drop 16).drop 8).drop 16).drop 8).drop 8) .uint64 8 rfl (by omega) with e | e <;> rw [e] <;> simp
  rw [binaryRead_of_le (((((data.drop 16).drop 8).drop 16).drop 8).drop 8) .uint64 8 rfl h5]
  simp only []
  by_cases h6 : 8 ≤ ((((((data.drop 16).drop 8).drop 16).drop 8).drop 8).drop 8).length
  swap
  · rcases binaryRead_of_lt ((((((data.drop 16).drop 8).drop 16).drop 8).drop 8).drop 8) .uint64 8 rfl (by omega) with e | e <;> rw [e] <;> simp
  rw [binaryRead_of_le ((((((data.drop 16).drop 8).drop 16).drop 8).drop 8).drop 8) .uint64 8 rfl h6]
  simp only []
  by_cases h7 : 16 ≤ (((((((data.drop 16).drop 8).drop 16).drop 8).drop 8).drop 8).drop 8).length
  swap
  · rcases binaryRead_of_lt (((((((data.drop 16).drop 8).drop 16).drop 8).drop 8).drop 8).drop 8) .byteArray16 16 rfl (by omega) with e | e <;> rw [e] <;> simp
  rw [binaryRead_of_le (((((((data.drop 16).drop 8).drop 16).drop 8).drop 8).drop 8).drop 8) .byteArray16 16 rfl h7]
  simp only []
  by_cases h8 : 16 ≤ ((((((((data.drop 16).drop 8).drop 16).drop 8).drop 8).drop 8).drop 8).drop 16).length
  swap
  · rcases binaryRead_of_lt ((((((((data.drop 16).drop 8).drop 16).drop 8).drop 8).drop 8).drop 8).drop 16) .byteArray16 16 rfl (by omega) with e | e <;> rw [e] <;> simp
  rw [binaryRead_of_le ((((((((data.drop 16).drop 8).drop 16).drop 8).drop 8).drop 8).drop 8).drop 16) .byteArray16 16 rfl h8]
  simp only []
  simp only [List.length_drop] at *
  omega

/-- C7: `DeserializeChunk` returns an error, and no chunk, for every byte
sequence shorter than the 104 bytes of the fixed fields, and for every byte
sequence in which, whatever length `algLen` the CompressionAlg field is taken
to have, fewer bytes follow the fixed fields and that field than the
CompressedSize it declares. -/
theorem deserializeChunk_rejects_truncated (data : Bytes) (algLen : Nat)
    (h : data.length < 104 ∨ data.length - (104 + algLen) < declaredCompressedSize data) :
    ∃ err, DeserializeChunk data = .error err := by
  have short : data.length < 104 → ∃ err, DeserializeChunk data = .error err := by
    intro hlen
    rcases deserializeChunk_of_lt data hlen with e | e
    · exact ⟨_, e⟩
    · exact ⟨_, e⟩
  rcases h with hlen | _
  · exact short hlen
  · by_cases hlen : data.length < 104
    · exact short hlen
    · exact ⟨_, deserializeChunk_of_le data (by omega)⟩

set_option maxRecDepth 100000 in
/-- C7, witness: the empty sequence, and `truncatedBytes`, 110 bytes that
declare a CompressedSize of 54 and carry 2 bytes after the 4-byte text. -/
theorem deserializeChunk_rejects_truncated_witness :
    (∃ err, DeserializeChunk [] = .error err) ∧
    (truncatedBytes.length = 110 ∧ declaredCompressedSize truncatedBytes = 54 ∧
      ∃ err, DeserializeChunk truncatedBytes = .error err) :=
  ⟨deserializeChunk_rejects_truncated [] 0 (Or.inl (by decide)),
   by decide, by decide,
   deserializeChunk_rejects_truncated truncatedBytes 4 (Or.inr (by decide))⟩

/-! ## Constructors -/

/-- C8: a chunk returned by `NewChunkFromOriginalData` (which fails only when
compression does) and the chunk returned by `NewChunkFromCompressedData`,
whatever sizes the caller declares, pass `VerifyCompressedDataChecksum`:
CompressedDataFP is the MD5 digest of Data. -/
theorem compressedDataChecksum_after_construction (gz : Gzip) (now : Int) (v : Nat)
    (poid : Bytes) (off : Nat) (d : Bytes) (osz csz : Nat) (od cd : Bytes) (alg : String) :
    (match NewChunkFromOriginalData gz now v poid off d with
     | .ok c => c.VerifyCompressedDataChecksum = true ∧ c.CompressedDataFP = computeMD5 c.Data
     | .error err => compressData gz d = .error err) ∧
    (NewChunkFromCompressedData now v poid off osz csz od cd alg).VerifyCompressedDataChecksum
      = true ∧
    (NewChunkFromCompressedData now v poid off osz csz od cd alg).CompressedDataFP =
      computeMD5 (NewChunkFromCompressedData now v poid off osz csz od cd alg).Data := by
  refine ⟨?_, ?_, rfl⟩
  · cases hz : compressData gz d with
    | error err => simp [newChunkFromOriginalData_error gz now v poid off d err hz]
    | ok z =>
      simp [newChunkFromOriginalData_eq gz now v poid off d z hz,
        Chunk.VerifyCompressedDataChecksum]
  · simp [Chunk.VerifyCompressedDataChecksum, NewChunkFromCompressedData]

/-- C9: when compression of the payload `d` succeeds with `z` and
decompression of `z` gives back `d`, `NewChunkFromOriginalData` returns a
chunk that passes `VerifyOriginalDataChecksum`. -/
theorem originalDataChecksum_after_construction (gz : Gzip) (now : Int) (v : Nat)
    (poid : Bytes) (off : Nat) (d z : Bytes)
    (hz : compressData gz d = .ok z) (hinv : (decompressData gz z).1 = d) :
    ∃ c, NewChunkFromOriginalData gz now v poid off d = .ok c ∧
      c.VerifyOriginalDataChecksum gz = true := by
  refine ⟨_, newChunkFromOriginalData_eq gz now v poid off d z hz, ?_⟩
  simp [Chunk.VerifyOriginalDataChecksum, hinv]

set_option maxRecDepth 100000 in
/-- C9, witness: the test payload and the empty payload, with the
stored-block codec, which decompresses what it compressed. -/
theorem originalDataChecksum_after_construction_witness :
    ((decompressData storedGzip (storedOutput testPayload)).1 = testPayload ∧
      ∃ c, NewChunkFromOriginalData storedGzip 1700000000 1 examplePoid 0 testPayload = .ok c ∧
        c.VerifyOriginalDataChecksum storedGzip = true) ∧
    ((decompressData storedGzip (storedOutput [])).1 = [] ∧
      ∃ c, NewChunkFromOriginalData storedGzip 1700000000 1 examplePoid 0 [] = .ok c ∧
        c.VerifyOriginalDataChecksum storedGzip = true) :=
  ⟨⟨by decide, originalDataChecksum_after_construction storedGzip 1700000000 1 examplePoid 0
      testPayload (storedOutput testPayload) rfl (by decide)⟩,
   ⟨by decide, originalDataChecksum_after_construction storedGzip 1700000000 1 examplePoid 0
      [] (storedOutput []) rfl (by decide)⟩⟩

/-- C10: when `compressData` succeeds on the payload `d` with `z`,
`NewChunkFromOriginalData` returns a chunk carrying the arguments, the
lengths of `d` and `z`, `z` as Data, the MD5 digests of `d` and `z`, the
current time and the name "gzip"; when `compressData` fails it returns that
error and no chunk. -/
theorem newChunkFromOriginalData_post (gz : Gzip) (now : Int) (v : Nat) (poid : Bytes)
    (off : Nat) (d : Bytes) :
    match compressData gz d with
    | .ok z => ∃ c, NewChunkFromOriginalData gz now v poid off d = .ok c ∧
        c.BirthVersion = v ∧ c.POID = poid ∧ c.Offset = off ∧ c.TimeStamp = now ∧
        c.OriginalSize = d.length ∧ c.CompressedSize = z.length ∧ c.Data = z ∧
        c.OriginalDataFP = computeMD5 d ∧ c.CompressedDataFP = computeMD5 z ∧
        c.CompressionAlg = "gzip"
    | .error err => NewChunkFromOriginalData gz now v poid off d = .error err := by
  cases hz : compressData gz d with
  | error err => exact newChunkFromOriginalData_error gz now v poid off d err hz
  | ok z =>
    exact ⟨_, newChunkFromOriginalData_eq gz now v poid off d z hz,
      rfl, rfl, rfl, rfl, rfl, rfl, rfl, rfl, rfl, rfl⟩

/-! ## Persistence -/

theorem deserializeChunk_error (data : Bytes) : ∃ err, DeserializeChunk data = .error err := by
  by_cases hlen : data.length < 104
  · rcases deserializeChunk_of_lt data hlen with e | e
    · exact ⟨_, e⟩
    · exact ⟨_, e⟩
  · exact ⟨_, deserializeChunk_of_le data (by omega)⟩

theorem dumpToFile_error (c : Chunk) (fs : FileSystem) :
    c.DumpToFile fs = (fs, some (.binaryWrite "string")) := by
  simp [Chunk.DumpToFile, serialize_error]

theorem readFromFile_error (c : Chunk) (fs : FileSystem) (filename : String) :
    ∃ err, c.ReadFromFile fs filename = (c, some err) := by
  unfold Chunk.ReadFromFile
  cases hread : osReadFile fs filename with
  | error err => exact ⟨err, rfl⟩
  | ok fileData =>
    obtain ⟨err, herr⟩ := deserializeChunk_error fileData
    exact ⟨err, by simp [herr]⟩

theorem md5Sum_nil_hex : hexEncode (md5Sum []) = "d41d8cd98f00b204e9800998ecf8427e" :=
  md5Sum_rfc1321.1

/-- C12, counterexample: for the payload "This is the original chunk data",
birth version 1 and offset 0 the chunk returned has OriginalSize 31, not 33. -/
theorem scenario_originalSize_not_33 :
    ∃ c, NewChunkFromOriginalData storedGzip 1700000000 1 examplePoid 0 testPayload = .ok c ∧
      c.OriginalSize = 31 ∧ c.OriginalSize ≠ 33 :=
  ⟨_, newChunkFromOriginalData_eq storedGzip 1700000000 1 examplePoid 0 testPayload
    (storedOutput testPayload) rfl, testPayload_length.1, by
      show testPayload.length ≠ 33
      rw [testPayload_length.1]
      decide⟩

/-- C12, amended: for the payload "This is the original chunk data", birth
version 1, offset 0 and any POID, the chunk `NewChunkFromOriginalData`
returns has OriginalSize 31, the number of bytes of that text; the
constructor fails only when compression does. -/
theorem scenario_originalSize (gz : Gzip) (now : Int) (poid : Bytes) :
    match NewChunkFromOriginalData gz now 1 poid 0 testPayload with
    | .ok c => c.OriginalSize = 31
    | .error err => compressData gz testPayload = .error err := by
  cases hz : compressData gz testPayload with
  | error err => simp [newChunkFromOriginalData_error gz now 1 poid 0 testPayload err hz]
  | ok z =>
    simp [newChunkFromOriginalData_eq gz now 1 poid 0 testPayload z hz, testPayload_length.1]

set_option maxRecDepth 100000 in
/-- C13, counterexample: the distinct host identifiers `collisionA` and
`collisionB` give the same POID for the path "/a/b"; and for the host
identifier made of their common first 16 bytes, the distinct absolute paths
made of their remaining bytes (which start with a slash and hold no other
slash and no zero byte) give the same POID. -/
theorem poid_collisions :
    (collisionA ≠ collisionB ∧
      POID collisionA (stringBytes "/a/b") = POID collisionB (stringBytes "/a/b")) ∧
    (collisionA.take 16 = collisionB.take 16 ∧ collisionA.drop 16 ≠ collisionB.drop 16 ∧
      (collisionA.drop 16).head? = some 47 ∧ (collisionB.drop 16).head? = some 47 ∧
      (collisionA.drop 17).all (fun b => b != 47 && b != 0) = true ∧
      (collisionB.drop 17).all (fun b => b != 47 && b != 0) = true ∧
      POID (collisionA.take 16) (collisionA.drop 16) =
        POID (collisionA.take 16) (collisionB.drop 16)) := by
  decide

/-- C13, amended: the POID of host identifier `H` and absolute path `P` is
the MD5 digest of `H` followed by `P`, and `processPath` logs its hexadecimal
text; equal arguments give equal POIDs; for distinct host identifiers, or
distinct paths, the hashed strings are distinct, and the POIDs are equal
exactly when those two strings have the same MD5 digest. -/
theorem poid_determinism_and_separation (H H2 P P2 : Bytes)
    (filepathAbs : Bytes → Except GoError Bytes) (path : Bytes) :
    POID H P = md5Sum (H ++ P) ∧
    (match filepathAbs path with
     | .ok absPath => processPath H filepathAbs path none = .ok (hexEncode (md5Sum (H ++ absPath)))
     | .error err => processPath H filepathAbs path none = .error err) ∧
    (H = H2 → P = P2 → POID H P = POID H2 P2) ∧
    (H ≠ H2 → H ++ P ≠ H2 ++ P) ∧
    (P ≠ P2 → H ++ P ≠ H ++ P2) ∧
    (POID H P = POID H2 P ↔ md5Sum (H ++ P) = md5Sum (H2 ++ P)) ∧
    (POID H P = POID H P2 ↔ md5Sum (H ++ P) = md5Sum (H ++ P2)) := by
  refine ⟨rfl, ?_, ?_, ?_, ?_, Iff.rfl, Iff.rfl⟩
  · cases habs : filepathAbs path with
    | error err => simp [processPath, habs]
    | ok absPath => simp [processPath, habs, POID]
  · intro h1 h2
    rw [h1, h2]
  · intro hne heq
    exact hne (List.append_cancel_right heq)
  · intro hne heq
    exact hne (List.append_cancel_left heq)

/-- C14 (the code fails it): on the input of TestFileOperations, whenever
`NewChunkFromOriginalData` returns a chunk, `DumpToFile` returns the error of
`binary.Write` for the string field and leaves the file system as it was, and
`ReadFromFile` of the chunk's file name into an empty chunk returns an error
and leaves that chunk empty. -/
theorem fileRoundTrip_fails (gz : Gzip) (now : Int) (fs : FileSystem) :
    match NewChunkFromOriginalData gz now 1 examplePoid 0 testPayload with
    | .ok c =>
      c.DumpToFile fs = (fs, some (.binaryWrite "string")) ∧
      ∃ err, zeroChunk.ReadFromFile fs (hexEncode c.ChunkID ++ ".chunk") = (zeroChunk, some err)
    | .error err => compressData gz testPayload = .error err := by
  cases hz : compressData gz testPayload with
  | error err => simp [newChunkFromOriginalData_error gz now 1 examplePoid 0 testPayload err hz]
  | ok z =>
    simp only [newChunkFromOriginalData_eq gz now 1 examplePoid 0 testPayload z hz]
    exact ⟨dumpToFile_error _ fs, readFromFile_error _ _ _⟩

/-! ## Host identifier -/

theorem lePut_length (n v : Nat) : (lePut n v).length = n := by
  induction n generalizing v with
  | zero => rfl
  | succ n ih => simp [lePut, ih]

theorem md5Sum_length (msg : Bytes) : (md5Sum msg).length = 16 := by
  simp [md5Sum, lePut_length]

theorem hexDigit_mem (n : Nat) (h : n < 16) : hexDigit n ∈ "0123456789abcdef".toList := by
  interval_cases n <;> decide

theorem hexEncode_data (bs : Bytes) :
    (hexEncode bs).data = bs.flatMap fun b => [hexDigit (b / 16 % 16), hexDigit (b % 16)] := rfl

theorem hexEncode_length (bs : Bytes) : (hexEncode bs).length = 2 * bs.length := by
  show (hexEncode bs).data.length = 2 * bs.length
  rw [hexEncode_data]
  induction bs with
  | nil => rfl
  | cons b rest ih => simp [List.flatMap_cons, ih]; omega

theorem hexEncode_lowercase (bs : Bytes) :
    ∀ ch ∈ (hexEncode bs).data, ch ∈ "0123456789abcdef".toList := by
  intro ch hch
  rw [hexEncode_data, List.mem_flatMap] at hch
  obtain ⟨b, _, hb⟩ := hch
  simp only [List.mem_cons, List.mem_singleton, List.not_mem_nil, or_false] at hb
  rcases hb with h | h
  · rw [h]; exact hexDigit_mem _ (Nat.mod_lt _ (by decide))
  · rw [h]; exact hexDigit_mem _ (Nat.mod_lt _ (by decide))

theorem firstMACAddress_eq_none (ifs : List NetInterface) :
    firstMACAddress ifs = none ↔ ∀ i ∈ ifs, i.usable = false := by
  induction ifs with
  | nil => simp [firstMACAddress]
  | cons i rest ih =>
    unfold firstMACAddress
    by_cases hflag : i.flags &&& flagLoopback = 0
    · cases haddr : i.hardwareAddr with
      | none => simp [hflag, haddr, ih, NetInterface.usable]
      | some addr => simp [hflag, haddr, NetInterface.usable]
    · simp [hflag, ih, NetInterface.usable]

theorem firstMACAddress_first (pre post : List NetInterface) (i : NetInterface) (addr : Bytes)
    (hpre : ∀ j ∈ pre, j.usable = false) (hflag : i.flags &&& flagLoopback = 0)
    (haddr : i.hardwareAddr = some addr) :
    firstMACAddress (pre ++ i :: post) = some (hardwareAddrString addr) := by
  induction pre with
  | nil => simp [firstMACAddress, hflag, haddr]
  | cons j rest ih =>
    have hj : j.usable = false := hpre j (by simp)
    have hrest : ∀ k ∈ rest, k.usable = false := fun k hk => hpre k (by simp [hk])
    rw [List.cons_append]
    unfold firstMACAddress
    by_cases hjf : j.flags &&& flagLoopback = 0
    · cases hja : j.hardwareAddr with
      | none => simp [hjf, ih hrest]
      | some a => simp [NetInterface.usable, hjf, hja] at hj
    · simp [hjf, ih hrest]

/-- C16: with the interface list and the host name lookup as inputs,
`GetUniqueID` fails exactly when no interface of the list is a non-loopback
with a hardware address or the host name lookup fails; otherwise it takes the
first such interface in list order and returns the hexadecimal text of the
MD5 digest of host name, "-" and the address text, which has 32 characters,
all of them lowercase hexadecimal digits. -/
theorem getUniqueID_spec (ifs : List NetInterface) (osHostname : Except GoError Bytes) :
    ((∃ err, GetUniqueID (.ok ifs) osHostname = .error err) ↔
      ((∀ i ∈ ifs, i.usable = false) ∨ ∃ err, osHostname = .error err)) ∧
    (∀ pre i post addr hostname, ifs = pre ++ i :: post → (∀ j ∈ pre, j.usable = false) →
      i.flags &&& flagLoopback = 0 → i.hardwareAddr = some addr → osHostname = .ok hostname →
      GetUniqueID (.ok ifs) osHostname =
        .ok (hexEncode (md5Sum (hostname ++ 45 :: hardwareAddrString addr)))) ∧
    (∀ id, GetUniqueID (.ok ifs) osHostname = .ok id →
      id.length = 32 ∧ ∀ ch ∈ id.data, ch ∈ "0123456789abcdef".toList) := by
  refine ⟨?_, ?_, ?_⟩
  · rw [← firstMACAddress_eq_none]
    unfold GetUniqueID getMACAddress getHostname
    cases hmac : firstMACAddress ifs with
    | none => simp [hmac]
    | some mac =>
      cases osHostname with
      | error err => simp [hmac]
      | ok hostname => simp [hmac]
  · intro pre i post addr hostname hifs hpre hflag haddr hhost
    subst hifs
    simp [GetUniqueID, getMACAddress, getHostname, hhost,
      firstMACAddress_first pre post i addr hpre hflag haddr]
  · intro id hid
    unfold GetUniqueID getMACAddress getHostname at hid
    cases hmac : firstMACAddress ifs with
    | none => simp [hmac] at hid
    | some mac =>
      cases osHostname with
      | error err => simp [hmac] at hid
      | ok hostname =>
        simp only [hmac] at hid
        injection hid with hid
        subst hid
        exact ⟨by rw [hexEncode_length, md5Sum_length], hexEncode_lowercase _⟩

set_option maxRecDepth 100000 in
/-- C16, witness: on `sampleInterfaces` the third interface is the first
usable one, and the identifier of host "myhost" is the digest of
"myhost-00:1a:2b:3c:4d:5e". -/
theorem getUniqueID_spec_witness :
    hardwareAddrString [0x00, 0x1a, 0x2b, 0x3c, 0x4d, 0x5e] = stringBytes "00:1a:2b:3c:4d:5e" ∧
    GetUniqueID (.ok sampleInterfaces) (.ok (stringBytes "myhost")) =
      .ok (hexEncode (md5Sum (stringBytes "myhost" ++ 45 ::
        hardwareAddrString [0x00, 0x1a, 0x2b, 0x3c, 0x4d, 0x5e]))) ∧
    GetUniqueID (.ok sampleInterfaces) (.ok (stringBytes "myhost")) =
      .ok "a1c8e366c622ca230be318129eb380be" ∧
    ∃ err, GetUniqueID (.ok (sampleInterfaces.take 2)) (.ok (stringBytes "myhost")) = .error err :=
  ⟨by decide,
   (getUniqueID_spec sampleInterfaces (.ok (stringBytes "myhost"))).2.1
     [⟨0x49, none⟩, ⟨0x13, none⟩] ⟨0x13, some [0x00, 0x1a, 0x2b, 0x3c, 0x4d, 0x5e]⟩
     [⟨0x13, some [0x02, 0x42, 0xac, 0x11, 0x00, 0x02]⟩] [0x00, 0x1a, 0x2b, 0x3c, 0x4d, 0x5e]
     (stringBytes "myhost") rfl (by decide) (by decide) rfl rfl,
   by decide,
   (getUniqueID_spec (sampleInterfaces.take 2) (.ok (stringBytes "myhost"))).1.mpr
     (Or.inl (by decide))⟩

/-! ## What the string field does to the codec -/

/-- C17: every chunk returned by `NewChunkFromOriginalData` or
`NewChunkFromCompressedData` has the MD5 digest of the empty byte sequence,
d41d8cd98f00b204e9800998ecf8427e, as ChunkID, so any two constructed chunks
have the same ChunkID whatever their arguments. -/
theorem chunkID_constant (gz : Gzip) (now : Int) (v : Nat) (poid : Bytes) (off : Nat)
    (d : Bytes) (now2 : Int) (v2 : Nat) (poid2 : Bytes) (off2 osz csz : Nat) (od cd : Bytes)
    (alg : String) (now3 : Int) (v3 : Nat) (poid3 : Bytes) (off3 osz3 csz3 : Nat)
    (od3 cd3 : Bytes) (alg3 : String) :
    (match NewChunkFromOriginalData gz now v poid off d with
     | .ok c =>
       c.ChunkID = md5Sum [] ∧ hexEncode c.ChunkID = "d41d8cd98f00b204e9800998ecf8427e" ∧
       c.ChunkID = (NewChunkFromCompressedData now2 v2 poid2 off2 osz csz od cd alg).ChunkID
     | .error err => compressData gz d = .error err) ∧
    (NewChunkFromCompressedData now2 v2 poid2 off2 osz csz od cd alg).ChunkID = md5Sum [] ∧
    hexEncode (NewChunkFromCompressedData now2 v2 poid2 off2 osz csz od cd alg).ChunkID =
      "d41d8cd98f00b204e9800998ecf8427e" ∧
    (NewChunkFromCompressedData now2 v2 poid2 off2 osz csz od cd alg).ChunkID =
      (NewChunkFromCompressedData now3 v3 poid3 off3 osz3 csz3 od3 cd3 alg3).ChunkID := by
  refine ⟨?_, rfl, ?_, rfl⟩
  · cases hz : compressData gz d with
    | error err => simp [newChunkFromOriginalData_error gz now v poid off d err hz]
    | ok z =>
      simp only [newChunkFromOriginalData_eq gz now v poid off d z hz]
      exact ⟨rfl, md5Sum_nil_hex, rfl⟩
  · exact md5Sum_nil_hex

/-- C18: for every chunk, `SerializeWithoutChunkID` returns the error of
`binary.Write` for the string field CompressionAlg and no bytes, so does
`Serialize`, and `DumpToFile` returns that error with the file system
unchanged. -/
theorem serialization_never_succeeds (c : Chunk) (fs : FileSystem) :
    c.SerializeWithoutChunkID = .error (.binaryWrite "string") ∧
    c.Serialize = .error (.binaryWrite "string") ∧
    c.DumpToFile fs = (fs, some (.binaryWrite "string")) :=
  ⟨serializeWithoutChunkID_error c, serialize_error c, dumpToFile_error c fs⟩

/-- C19: `DeserializeChunk` returns an error and no chunk on every byte
sequence: `io.EOF` or `io.ErrUnexpectedEOF` from a fixed-width read when it
has fewer than 104 bytes, the error of `binary.Read` for the `*string`
destination otherwise; so `ReadFromFile` returns an error for every file
system and file name, and leaves its receiver as it was. -/
theorem deserialization_never_succeeds (data : Bytes) (c : Chunk) (fs : FileSystem)
    (filename : String) :
    (∃ err, DeserializeChunk data = .error err) ∧
    (data.length < 104 →
      DeserializeChunk data = .error .eof ∨ DeserializeChunk data = .error .unexpectedEOF) ∧
    (104 ≤ data.length → DeserializeChunk data = .error (.binaryRead "*string")) ∧
    (∃ err, c.ReadFromFile fs filename = (c, some err)) :=
  ⟨deserializeChunk_error data, deserializeChunk_of_lt data, deserializeChunk_of_le data,
    readFromFile_error c fs filename⟩

/-- C20: when `ReadFromFile` returns an error, either `os.ReadFile` or
`DeserializeChunk` returned it and the receiver is unchanged; and the
receiver after any call is either the receiver before it or the chunk that
`DeserializeChunk` returned for the bytes read, whole. -/
theorem readFromFile_atomic (c : Chunk) (fs : FileSystem) (filename : String) (err : GoError)
    (h : (c.ReadFromFile fs filename).2 = some err) :
    (c.ReadFromFile fs filename).1 = c ∧
    (osReadFile fs filename = .error err ∨
      ∃ fileData, osReadFile fs filename = .ok fileData ∧
        DeserializeChunk fileData = .error err) ∧
    (∀ d : Chunk, ∀ name, (d.ReadFromFile fs name).1 = d ∨
      ∃ fileData, osReadFile fs name = .ok fileData ∧
        DeserializeChunk fileData = .ok (d.ReadFromFile fs name).1 ∧
        (d.ReadFromFile fs name).2 = none) := by
  refine ⟨?_, ?_, ?_⟩
  · unfold Chunk.ReadFromFile at h ⊢
    cases hread : osReadFile fs filename with
    | error e => simp [hread]
    | ok fileData =>
      cases hdes : DeserializeChunk fileData with
      | error e => simp [hread, hdes]
      | ok chunk => simp [hread, hdes] at h
  · unfold Chunk.ReadFromFile at h
    cases hread : osReadFile fs filename with
    | error e =>
      simp [hread] at h
      left; rw [h]
    | ok fileData =>
      cases hdes : DeserializeChunk fileData with
      | error e =>
        simp [hread, hdes] at h
        right; exact ⟨fileData, rfl, by rw [hdes, h]⟩
      | ok chunk => simp [hread, hdes] at h
  · intro d name
    unfold Chunk.ReadFromFile
    cases hread : osReadFile fs name with
    | error e => left; simp [hread]
    | ok fileData =>
      cases hdes : DeserializeChunk fileData with
      | error e => left; simp [hread, hdes]
      | ok chunk => right; exact ⟨fileData, rfl, by simp [hread, hdes], by simp [hread, hdes]⟩

set_option maxRecDepth 100000 in
/-- C20, witness: a missing file, and a file of 200 zero bytes that
`DeserializeChunk` rejects; the receiver `testChunk` is unchanged both times. -/
theorem readFromFile_atomic_witness :
    ((testChunk.ReadFromFile sampleFS "absent.chunk").2 =
        some (.other "open absent.chunk: no such file or directory") ∧
      (testChunk.ReadFromFile sampleFS "absent.chunk").1 = testChunk) ∧
    ((testChunk.ReadFromFile sampleFS "zeros.chunk").2 = some (.binaryRead "*string") ∧
      (testChunk.ReadFromFile sampleFS "zeros.chunk").1 = testChunk) :=
  ⟨⟨by decide, (readFromFile_atomic testChunk sampleFS "absent.chunk"
      (.other "open absent.chunk: no such file or directory") (by decide)).1⟩,
   ⟨by decide, (readFromFile_atomic testChunk sampleFS "zeros.chunk"
      (.binaryRead "*string") (by decide)).1⟩⟩

/-! ## JSON conversion -/

theorem decimalAux_succ (fuel n : Nat) (acc : Bytes) :
    decimalAux (fuel + 1) n acc =
      if n < 10 then (48 + n) :: acc else decimalAux fuel (n / 10) ((48 + n % 10) :: acc) := rfl

theorem decimalAux_append (fuel n : Nat) (acc : Bytes) :
    decimalAux fuel n acc = decimalAux fuel n [] ++ acc := by
  induction fuel generalizing n acc with
  | zero => rfl
  | succ fuel ih =>
    rw [decimalAux_succ, decimalAux_succ]
    by_cases h : n < 10
    · simp [h]
    · simp only [h, if_false]
      rw [ih (n / 10) ((48 + n % 10) :: acc), ih (n / 10) [48 + n % 10]]
      simp

theorem digitsValue_append_single (ds : Bytes) (d : Nat) :
    digitsValue (ds ++ [d]) = 10 * digitsValue ds + (d - 48) := by
  simp [digitsValue, List.foldl_append]

/-- The digits `decimalAux` writes for a number below `10 ^ fuel`: they are
digits, they spell the number, and the first one is a zero only for zero. -/
theorem decimalAux_spec (fuel n : Nat) (h : n < 10 ^ (fuel + 1)) :
    ∃ d ds, decimalAux (fuel + 1) n [] = d :: ds ∧ isDigit d = true ∧
      ds.all isDigit = true ∧ digitsValue (d :: ds) = n ∧ (n = 0 → d = 48 ∧ ds = []) ∧
      (n ≠ 0 → d ≠ 48) := by
  induction fuel generalizing n with
  | zero =>
    have hn : n < 10 := by simpa using h
    rw [decimalAux_succ]
    refine ⟨48 + n, [], by simp [hn], by simp [isDigit]; omega, by simp, ?_, ?_, ?_⟩
    · simp [digitsValue]
    · intro h0; simp [h0]
    · intro h0; omega
  | succ fuel ih =>
    rw [decimalAux_succ]
    by_cases hn : n < 10
    · refine ⟨48 + n, [], by simp [hn], by simp [isDigit]; omega, by simp, ?_, ?_, ?_⟩
      · simp [digitsValue]
      · intro h0; simp [h0]
      · intro h0; omega
    · simp only [hn, if_false]
      have hlt : n / 10 < 10 ^ (fuel + 1) := by
        rw [Nat.div_lt_iff_lt_mul (by decide)]
        rw [Nat.pow_succ] at h
        exact h
      obtain ⟨d, ds, heq, hd, hds, hval, _, hnz⟩ := ih (n / 10) hlt
      rw [decimalAux_append, heq]
      refine ⟨d, ds ++ [48 + n % 10], by simp, hd, ?_, ?_, ?_, ?_⟩
      · simp [List.all_append, hds, isDigit]; omega
      · have : d :: (ds ++ [48 + n % 10]) = (d :: ds) ++ [48 + n % 10] := by simp
        rw [this, digitsValue_append_single, hval]
        omega
      · intro h0; omega
      · intro _; exact hnz (by omega)

theorem natText_spec (n : Nat) (h : n < 2 ^ 64) :
    ∃ d ds, natText n = d :: ds ∧ isDigit d = true ∧ ds.all isDigit = true ∧
      digitsValue (d :: ds) = n ∧ (n = 0 → d = 48 ∧ ds = []) ∧ (n ≠ 0 → d ≠ 48) :=
  decimalAux_spec 19 n (by omega)

theorem spanDigits_append (ds : Bytes) (c : Nat) (rest : Bytes) (hds : ds.all isDigit = true)
    (hc : isDigit c = false) : spanDigits (ds ++ c :: rest) = (ds, c :: rest) := by
  induction ds with
  | nil =>
    simp only [List.nil_append, spanDigits]
    simp [isDigit] at hc
    have : ¬ (48 ≤ c ∧ c ≤ 57) := by omega
    simp [this]
  | cons d ds ih =>
    simp only [List.all_cons, Bool.and_eq_true] at hds
    have hd : 48 ≤ d ∧ d ≤ 57 := by simpa [isDigit] using hds.1
    have hrec := ih hds.2
    simp [spanDigits, hd, hrec]

theorem scanUnsigned_digits (d : Nat) (ds : Bytes) (c : Nat) (rest : Bytes)
    (hd : isDigit d = true) (hds : ds.all isDigit = true) (hlead : d = 48 → ds = [])
    (hc : isDelimiter c = true) :
    scanUnsigned (d :: ds ++ c :: rest) = some (d :: ds, c :: rest) := by
  have hcd : isDigit c = false := by
    simp [isDelimiter] at hc
    simp [isDigit]
    omega
  have hc46 : c ≠ 46 := by simp [isDelimiter] at hc; omega
  have hce : ¬ (c = 101 ∨ c = 69) := by simp [isDelimiter] at hc; omega
  have hint : scanInteger (d :: ds ++ c :: rest) = some (d :: ds, c :: rest) := by
    by_cases h48 : d = 48
    · subst h48
      simp [hlead rfl, scanInteger]
    · have hd2 : 49 ≤ d ∧ d ≤ 57 := by simp [isDigit] at hd; omega
      simp [scanInteger, h48, hd2, spanDigits_append ds c rest hds hcd]
  rw [scanUnsigned, hint]
  simp [scanFraction, hc46, scanExponent, hce]

theorem scanNumber_natText (n c : Nat) (rest : Bytes) (h : n < 2 ^ 64)
    (hc : isDelimiter c = true) :
    scanNumber (natText n ++ c :: rest) = some (natText n, c :: rest) := by
  obtain ⟨d, ds, heq, hd, hds, _, hz, hnz⟩ := natText_spec n h
  rw [heq]
  have hd45 : d ≠ 45 := by simp [isDigit] at hd; omega
  have hlead : d = 48 → ds = [] := by
    intro h48
    by_cases h0 : n = 0
    · exact (hz h0).2
    · exact absurd h48 (hnz h0)
  simp only [List.cons_append, scanNumber, hd45, if_false]
  exact scanUnsigned_digits d ds c rest hd hds hlead hc

theorem parseUint_natText (n bits : Nat) (h : n < 2 ^ 64) (hb : n < 2 ^ bits) :
    parseUint (natText n) bits = some n := by
  obtain ⟨d, ds, heq, hd, hds, hval, _, _⟩ := natText_spec n h
  rw [heq]
  have hall : (d :: ds).all (fun x => decide (48 ≤ x) && decide (x ≤ 57)) = true := by
    simp only [List.all_cons, Bool.and_eq_true]
    exact ⟨by simpa [isDigit] using hd, by simpa [isDigit] using hds⟩
  unfold parseUint
  rw [hval]
  simp only [hall, hb, ne_eq, reduceCtorEq, not_false_eq_true, and_self, if_true]

/-! ## JSON round trip: values -/

theorem skipSpace_cons (b : Nat) (rest : Bytes) (h : isSpace b = false) :
    skipSpace (b :: rest) = b :: rest := by
  have : ¬ (b = 32 ∨ b = 9 ∨ b = 10 ∨ b = 13) := by
    simp [isSpace] at h
    omega
  simp [skipSpace, this]

theorem parseValue_number (fuel b : Nat) (lit rest tail : Bytes)
    (hb : isDigit b = true ∨ b = 45)
    (hscan : scanNumber (b :: lit ++ rest) = some (tail, rest)) :
    parseValue (fuel + 1) (b :: lit ++ rest) = some (.number tail, rest) := by
  have h1 : b ≠ 123 ∧ b ≠ 91 ∧ b ≠ 34 ∧ b ≠ 116 ∧ b ≠ 102 ∧ b ≠ 110 := by
    rcases hb with hb | hb
    · simp [isDigit] at hb; omega
    · omega
  obtain ⟨a1, a2, a3, a4, a5, a6⟩ := h1
  have hscan2 : scanNumber (b :: (lit ++ rest)) = some (tail, rest) := hscan
  simp only [List.cons_append, parseValue, a1, a2, a3, a4, a5, a6, if_false, hscan2]

theorem renders_nat (n : Nat) (h : n < 2 ^ 64) : Renders (natText n) (.number (natText n)) 1 := by
  obtain ⟨d, ds, heq, hd, _, _, _, _⟩ := natText_spec n h
  refine ⟨⟨d, ds, heq, ?_⟩, ?_⟩
  · simp [isDigit] at hd; simp [isSpace]; omega
  · intro fuel c rest hfuel hc
    obtain ⟨f, rfl⟩ : ∃ f, fuel = f + 1 := ⟨fuel - 1, by omega⟩
    have hscan := scanNumber_natText n c rest h hc
    rw [heq] at hscan ⊢
    exact parseValue_number f d ds (c :: rest) (d :: ds) (Or.inl hd) hscan

theorem renders_int (i : Int) (hlo : -2 ^ 63 ≤ i) (hhi : i < 2 ^ 63) :
    Renders (intText i) (.number (intText i)) 1 := by
  unfold intText
  by_cases hneg : i < 0
  · simp only [hneg, if_true]
    have hm : (-i).toNat < 2 ^ 64 := by omega
    refine ⟨⟨45, natText (-i).toNat, rfl, by decide⟩, ?_⟩
    intro fuel c rest hfuel hc
    obtain ⟨f, rfl⟩ : ∃ f, fuel = f + 1 := ⟨fuel - 1, by omega⟩
    apply parseValue_number f 45 (natText (-i).toNat) (c :: rest) _ (Or.inr rfl)
    obtain ⟨d, ds, heq, hd, hds, _, hz, hnz⟩ := natText_spec _ hm
    have hlead : d = 48 → ds = [] := by
      intro h48
      by_cases h0 : (-i).toNat = 0
      · exact (hz h0).2
      · exact absurd h48 (hnz h0)
    have hu := scanUnsigned_digits d ds c rest hd hds hlead hc
    simp only [List.cons_append, scanNumber, if_true, heq]
    rw [show d :: (ds ++ c :: rest) = d :: ds ++ c :: rest from rfl, hu]
  · simp only [hneg, if_false]
    exact renders_nat i.toNat (by omega)

theorem parseInt64_intText (i : Int) (hlo : -2 ^ 63 ≤ i) (hhi : i < 2 ^ 63) :
    parseInt64 (intText i) = some i := by
  unfold intText
  by_cases hneg : i < 0
  · simp only [hneg, if_true]
    have hm : (-i).toNat < 2 ^ 64 := by omega
    obtain ⟨d, ds, heq, hd, hds, hval, _, _⟩ := natText_spec _ hm
    have hall : (d :: ds).all (fun x => decide (48 ≤ x) && decide (x ≤ 57)) = true := by
      simp only [List.all_cons, Bool.and_eq_true]
      exact ⟨by simpa [isDigit] using hd, by simpa [isDigit] using hds⟩
    have hle : (-i).toNat ≤ 2 ^ 63 := by omega
    rw [heq]
    simp only [parseInt64, if_true, hall, hval, hle, ne_eq, reduceCtorEq, not_false_eq_true,
      and_self]
    congr 1
    omega
  · simp only [hneg, if_false]
    have hm : i.toNat < 2 ^ 64 := by omega
    obtain ⟨d, ds, heq, hd, hds, hval, _, _⟩ := natText_spec _ hm
    have hall : (d :: ds).all (fun x => decide (48 ≤ x) && decide (x ≤ 57)) = true := by
      simp only [List.all_cons, Bool.and_eq_true]
      exact ⟨by simpa [isDigit] using hd, by simpa [isDigit] using hds⟩
    have hlt : i.toNat < 2 ^ 63 := by omega
    have h45 : d ≠ 45 ∧ d ≠ 43 := by simp [isDigit] at hd; omega
    rw [heq]
    simp only [parseInt64, h45.1, h45.2, if_false, hall, hval, hlt, and_self, if_true]
    congr 1
    omega

theorem scanString_plain (s rest acc : Bytes) (fuel : Nat) (hs : s.all isPlain = true)
    (hf : s.length < fuel) : scanString fuel (s ++ 34 :: rest) acc = some (acc ++ s, rest) := by
  induction s generalizing fuel acc with
  | nil =>
    obtain ⟨f, rfl⟩ : ∃ f, fuel = f + 1 := ⟨fuel - 1, by simp at hf; omega⟩
    simp [scanString]
  | cons b s ih =>
    obtain ⟨f, rfl⟩ : ∃ f, fuel = f + 1 := ⟨fuel - 1, by simp at hf; omega⟩
    simp only [List.all_cons, Bool.and_eq_true] at hs
    have hb : b ≠ 34 ∧ b ≠ 92 ∧ ¬ b < 32 ∧ b < 128 := by
      have := hs.1
      simp [isPlain] at this
      omega
    have hrec := ih (acc ++ [b]) f hs.2 (by simp at hf; omega)
    simp only [List.cons_append, scanString, hb.1, hb.2.1, hb.2.2.1, hb.2.2.2, if_false, if_true]
    simpa using hrec

theorem renders_string (s : Bytes) (hs : s.all isPlain = true) :
    Renders (34 :: s ++ [34]) (.string s) 1 := by
  refine ⟨⟨34, s ++ [34], by simp, by decide⟩, ?_⟩
  intro fuel c rest hfuel _
  obtain ⟨f, rfl⟩ : ∃ f, fuel = f + 1 := ⟨fuel - 1, by omega⟩
  have hscan := scanString_plain s (c :: rest) [] ((s ++ 34 :: c :: rest).length + 1) hs
    (by simp; omega)
  have hre : s ++ [34] ++ c :: rest = s ++ 34 :: c :: rest := by simp
  simp only [List.cons_append, parseValue, hre]
  simp only [show (34 : Nat) ≠ 123 by decide, show (34 : Nat) ≠ 91 by decide, if_false, if_true,
    hscan, List.nil_append]

theorem parseItems_numbers (bs : Bytes) (b : Nat) (tail : Bytes) (fuel : Nat)
    (hb : ∀ x ∈ b :: bs, x < 2 ^ 64) (hf : (b :: bs).length + 1 ≤ fuel) :
    parseItems fuel (joinComma ((b :: bs).map natText) ++ 93 :: tail) =
      some ((b :: bs).map (fun x => JValue.number (natText x)), tail) := by
  induction bs generalizing b fuel with
  | nil =>
    obtain ⟨f, rfl⟩ : ∃ f, fuel = f + 1 := ⟨fuel - 1, by simp at hf; omega⟩
    obtain ⟨⟨d, t, hdt, hsp⟩, hr⟩ := renders_nat b (hb b (by simp))
    have hval := hr f 93 tail (by simp at hf; omega) (by decide)
    simp only [List.map_cons, List.map_nil, joinComma, parseItems]
    rw [hdt, List.cons_append, skipSpace_cons d _ hsp, ← List.cons_append, ← hdt, hval]
    simp [skipSpace_cons 93 tail (by decide)]
  | cons b2 bs ih =>
    obtain ⟨f, rfl⟩ : ∃ f, fuel = f + 1 := ⟨fuel - 1, by simp at hf; omega⟩
    obtain ⟨⟨d, t, hdt, hsp⟩, hr⟩ := renders_nat b (hb b (by simp))
    have hrec := ih b2 f (fun x hx => hb x (by simp at hx ⊢; tauto)) (by simp at hf ⊢; omega)
    have hval := hr f 44 (joinComma ((b2 :: bs).map natText) ++ 93 :: tail)
      (by simp at hf; omega) (by decide)
    simp only [List.map_cons, joinComma, parseItems]
    simp only [List.map_cons] at hrec hval
    rw [List.append_assoc, List.cons_append, hdt, List.cons_append, skipSpace_cons d _ hsp,
      ← List.cons_append, ← hdt, hval]
    simp [skipSpace_cons 44 _ (by decide), hrec]

theorem renders_byteArray (bs : Bytes) (b : Nat) (hb : ∀ x ∈ b :: bs, x < 2 ^ 64) :
    Renders (byteArrayText (b :: bs))
      (.array ((b :: bs).map (fun x => JValue.number (natText x)))) ((b :: bs).length + 2) := by
  refine ⟨⟨91, joinComma ((b :: bs).map natText) ++ [93], by simp [byteArrayText], by decide⟩, ?_⟩
  intro fuel c rest hfuel _
  obtain ⟨f, rfl⟩ : ∃ f, fuel = f + 1 := ⟨fuel - 1, by omega⟩
  have hitems := parseItems_numbers bs b (c :: rest) f hb (by omega)
  obtain ⟨⟨d, t, hdt, hsp⟩, _⟩ := renders_nat b (hb b (by simp))
  have hd93 : d ≠ 93 := by
    obtain ⟨d2, ds2, heq2, hd2, _⟩ := natText_spec b (hb b (by simp))
    rw [hdt] at heq2
    injection heq2 with h1 _
    subst h1
    simp [isDigit] at hd2
    omega
  have hhead : (skipSpace (joinComma ((b :: bs).map natText) ++ 93 :: c :: rest)).head? ≠
      some 93 := by
    cases bs with
    | nil =>
      simp only [List.map_cons, List.map_nil, joinComma]
      rw [hdt, List.cons_append, skipSpace_cons d _ hsp]
      simpa using hd93
    | cons b2 bs =>
      simp only [List.map_cons, joinComma]
      rw [hdt, List.cons_append, List.cons_append, skipSpace_cons d _ hsp]
      simpa using hd93
  have hre : joinComma ((b :: bs).map natText) ++ [93] ++ c :: rest =
      joinComma ((b :: bs).map natText) ++ 93 :: c :: rest := by simp
  simp only [byteArrayText, List.cons_append, parseValue, hre]
  simp only [show (91 : Nat) ≠ 123 by decide, if_false, if_true, hhead, hitems]

/-! ## JSON round trip: base64 -/

theorem base64Char_spec : ∀ i < 64, base64Index (base64Char i) = some i ∧
    base64Char i ≠ 61 ∧ base64Char i ≠ 13 ∧ base64Char i ≠ 10 ∧ isPlain (base64Char i) = true := by
  decide

theorem base64_index_char (i : Nat) (h : i < 64) : base64Index (base64Char i) = some i :=
  (base64Char_spec i h).1

theorem base64_char_ne_pad (i : Nat) (h : i < 64) : base64Char i ≠ 61 :=
  (base64Char_spec i h).2.1

theorem base64DecodeGroups_encode (bs : Bytes) (h : bs.all (· < 256) = true) :
    base64DecodeGroups (base64Encode bs) = some bs := by
  induction bs using base64Encode.induct with
  | case1 b0 b1 b2 rest ih =>
    simp only [List.all_cons, Bool.and_eq_true, decide_eq_true_eq] at h
    obtain ⟨h0, h1, h2, hrest⟩ := h
    have k0 : b0 / 4 < 64 := by omega
    have k1 : b0 % 4 * 16 + b1 / 16 < 64 := by omega
    have k2 : b1 % 16 * 4 + b2 / 64 < 64 := by omega
    have k3 : b2 % 64 < 64 := by omega
    have e0 : b0 / 4 * 4 + (b0 % 4 * 16 + b1 / 16) / 16 = b0 := by omega
    have e1 : (b0 % 4 * 16 + b1 / 16) % 16 * 16 + (b1 % 16 * 4 + b2 / 64) / 4 = b1 := by omega
    have e2 : (b1 % 16 * 4 + b2 / 64) % 4 * 64 + b2 % 64 = b2 := by omega
    simp only [base64Encode, base64DecodeGroups, base64_index_char _ k0, base64_index_char _ k1,
      base64_index_char _ k2, base64_index_char _ k3, base64_char_ne_pad _ k2,
      base64_char_ne_pad _ k3, if_false, ih (by simpa using hrest), e0, e1, e2]
  | case2 b0 b1 =>
    simp only [List.all_cons, Bool.and_eq_true, decide_eq_true_eq] at h
    obtain ⟨h0, h1, _⟩ := h
    have k0 : b0 / 4 < 64 := by omega
    have k1 : b0 % 4 * 16 + b1 / 16 < 64 := by omega
    have k2 : b1 % 16 * 4 < 64 := by omega
    have e0 : b0 / 4 * 4 + (b0 % 4 * 16 + b1 / 16) / 16 = b0 := by omega
    have e1 : (b0 % 4 * 16 + b1 / 16) % 16 * 16 + b1 % 16 * 4 / 4 = b1 := by omega
    simp only [base64Encode, base64DecodeGroups, base64_index_char _ k0, base64_index_char _ k1,
      base64_index_char _ k2, base64_char_ne_pad _ k2, if_false, if_true, e0, e1]
  | case3 b0 =>
    simp only [List.all_cons, Bool.and_eq_true, decide_eq_true_eq] at h
    obtain ⟨h0, _⟩ := h
    have k0 : b0 / 4 < 64 := by omega
    have k1 : b0 % 4 * 16 < 64 := by omega
    have e0 : b0 / 4 * 4 + b0 % 4 * 16 / 16 = b0 := by omega
    simp only [base64Encode, base64DecodeGroups, base64_index_char _ k0, base64_index_char _ k1,
      if_true, and_self, e0]
  | case4 => rfl

theorem base64Encode_chars (bs : Bytes) (h : bs.all (· < 256) = true) :
    ∀ c ∈ base64Encode bs, isPlain c = true ∧ c ≠ 13 ∧ c ≠ 10 := by
  have pad : isPlain 61 = true ∧ (61 : Nat) ≠ 13 ∧ (61 : Nat) ≠ 10 := by decide
  have ch : ∀ i, i < 64 → isPlain (base64Char i) = true ∧ base64Char i ≠ 13 ∧
      base64Char i ≠ 10 := fun i hi =>
    ⟨(base64Char_spec i hi).2.2.2.2, (base64Char_spec i hi).2.2.1, (base64Char_spec i hi).2.2.2.1⟩
  induction bs using base64Encode.induct with
  | case1 b0 b1 b2 rest ih =>
    simp only [List.all_cons, Bool.and_eq_true, decide_eq_true_eq] at h
    obtain ⟨h0, h1, h2, hrest⟩ := h
    intro c hc
    simp only [base64Encode, List.mem_cons] at hc
    rcases hc with rfl | rfl | rfl | rfl | hc
    · exact ch _ (by omega)
    · exact ch _ (by omega)
    · exact ch _ (by omega)
    · exact ch _ (by omega)
    · exact ih (by simpa using hrest) c hc
  | case2 b0 b1 =>
    simp only [List.all_cons, Bool.and_eq_true, decide_eq_true_eq] at h
    obtain ⟨h0, h1, _⟩ := h
    intro c hc
    simp only [base64Encode, List.mem_cons, List.mem_singleton, List.not_mem_nil, or_false] at hc
    rcases hc with rfl | rfl | rfl | rfl
    · exact ch _ (by omega)
    · exact ch _ (by omega)
    · exact ch _ (by omega)
    · exact pad
  | case3 b0 =>
    simp only [List.all_cons, Bool.and_eq_true, decide_eq_true_eq] at h
    obtain ⟨h0, _⟩ := h
    intro c hc
    simp only [base64Encode, List.mem_cons, List.mem_singleton, List.not_mem_nil, or_false] at hc
    rcases hc with rfl | rfl | rfl | rfl
    · exact ch _ (by omega)
    · exact ch _ (by omega)
    · exact pad
    · exact pad
  | case4 => intro c hc; simp [base64Encode] at hc

theorem base64Decode_encode (bs : Bytes) (h : bs.all (· < 256) = true) :
    base64Decode (base64Encode bs) = some bs := by
  unfold base64Decode
  have hfilter : (base64Encode bs).filter (fun c => c != 13 && c != 10) = base64Encode bs := by
    rw [List.filter_eq_self]
    intro c hc
    obtain ⟨_, h13, h10⟩ := base64Encode_chars bs h c hc
    simp [h13, h10]
  rw [hfilter]
  exact base64DecodeGroups_encode bs h

theorem base64Encode_plain (bs : Bytes) (h : bs.all (· < 256) = true) :
    (base64Encode bs).all isPlain = true := by
  rw [List.all_eq_true]
  intro c hc
  exact (base64Encode_chars bs h c hc).1

/-! ## JSON round trip: the object -/

theorem renderMembers_length (ms : List (Bytes × Bytes)) :
    3 * ms.length ≤ (renderMembers ms).length := by
  induction ms with
  | nil => simp [renderMembers]
  | cons m ms ih =>
    obtain ⟨key, text⟩ := m
    cases ms with
    | nil => simp [renderMembers]; omega
    | cons m2 ms =>
      simp only [renderMembers, List.length_append, List.length_cons] at ih ⊢
      omega

theorem parseMembers_render (m : Bytes × Bytes × JValue) (ms : List (Bytes × Bytes × JValue))
    (need fuel : Nat) (tail : Bytes)
    (hms : ∀ x ∈ m :: ms, x.1.all isPlain = true ∧ Renders x.2.1 x.2.2 need)
    (hf : need + (m :: ms).length ≤ fuel) :
    parseMembers fuel (renderMembers ((m :: ms).map memberText) ++ 125 :: tail) =
      some ((m :: ms).map memberValue, tail) := by
  induction ms generalizing m fuel with
  | nil =>
    obtain ⟨f, rfl⟩ : ∃ f, fuel = f + 1 := ⟨fuel - 1, by simp at hf; omega⟩
    obtain ⟨key, text, value⟩ := m
    obtain ⟨hkey, ⟨b, t, hbt, hsp⟩, hr⟩ := hms (key, text, value) (by simp)
    simp only at hkey hbt hr
    have hval := hr f 125 tail (by simp at hf; omega) (by decide)
    have hscan := scanString_plain key (58 :: (text ++ 125 :: tail)) []
      ((key ++ 34 :: 58 :: (text ++ 125 :: tail)).length + 1) hkey (by simp; omega)
    simp only [List.map_cons, List.map_nil, memberText, memberValue, renderMembers,
      List.cons_append, List.append_assoc, parseMembers]
    rw [skipSpace_cons 34 _ (by decide)]
    simp only [if_true, hscan, List.nil_append]
    rw [skipSpace_cons 58 _ (by decide)]
    simp only [if_true]
    rw [hbt, List.cons_append, skipSpace_cons b _ hsp, ← List.cons_append, ← hbt, hval]
    simp [skipSpace_cons 125 tail (by decide)]
  | cons m2 ms ih =>
    obtain ⟨f, rfl⟩ : ∃ f, fuel = f + 1 := ⟨fuel - 1, by simp at hf; omega⟩
    obtain ⟨key, text, value⟩ := m
    obtain ⟨hkey, ⟨b, t, hbt, hsp⟩, hr⟩ := hms (key, text, value) (by simp)
    simp only at hkey hbt hr
    have hrec := ih m2 f (fun x hx => hms x (by simp at hx ⊢; tauto)) (by simp at hf ⊢; omega)
    have hval := hr f 44 (renderMembers ((m2 :: ms).map memberText) ++ 125 :: tail)
      (by simp at hf; omega) (by decide)
    have hscan := scanString_plain key
      (58 :: (text ++ 44 :: (renderMembers ((m2 :: ms).map memberText) ++ 125 :: tail))) []
      ((key ++ 34 :: 58 ::
        (text ++ 44 :: (renderMembers ((m2 :: ms).map memberText) ++ 125 :: tail))).length + 1)
      hkey (by simp; omega)
    simp only [List.map_cons] at hrec hval hscan
    simp only [List.map_cons, memberText, memberValue, renderMembers,
      List.cons_append, List.append_assoc, parseMembers]
    simp only [memberText] at hrec hval hscan
    rw [skipSpace_cons 34 _ (by decide)]
    simp only [if_true, hscan, List.nil_append]
    rw [skipSpace_cons 58 _ (by decide)]
    simp only [if_true]
    rw [hbt, List.cons_append, skipSpace_cons b _ hsp, ← List.cons_append, ← hbt, hval]
    simp only [skipSpace_cons 44 _ (by decide), if_true, hrec, memberValue]

theorem parseDocument_object (m : Bytes × Bytes × JValue) (ms : List (Bytes × Bytes × JValue))
    (need : Nat) (hms : ∀ x ∈ m :: ms, x.1.all isPlain = true ∧ Renders x.2.1 x.2.2 need)
    (hneed : need ≤ 2 * (m :: ms).length) :
    parseDocument (123 :: renderMembers ((m :: ms).map memberText) ++ [125]) =
      some (.object ((m :: ms).map memberValue)) := by
  have hlen := renderMembers_length ((m :: ms).map memberText)
  have hmem := parseMembers_render m ms need
    (123 :: (renderMembers ((m :: ms).map memberText) ++ [125])).length [] hms
    (by
      simp only [List.length_map, List.length_cons] at hlen
      simp only [List.length_cons, List.length_append, List.length_nil] at hneed ⊢
      omega)
  have hhead : (skipSpace (renderMembers ((m :: ms).map memberText) ++ [125])).head? ≠
      some 125 := by
    obtain ⟨key, text, value⟩ := m
    cases ms with
    | nil =>
      simp only [List.map_cons, List.map_nil, memberText, renderMembers, List.cons_append]
      rw [skipSpace_cons 34 _ (by decide)]
      simp
    | cons m2 ms =>
      simp only [List.map_cons, memberText, renderMembers, List.cons_append]
      rw [skipSpace_cons 34 _ (by decide)]
      simp
  unfold parseDocument
  rw [List.cons_append, skipSpace_cons 123 _ (by decide)]
  simp only [parseValue, if_true, hhead, if_false, hmem, skipSpace]

/-! ## JSON round trip: the chunk -/

theorem renders_mono (text : Bytes) (v : JValue) (n n2 : Nat) (h : Renders text v n)
    (hn : n ≤ n2) : Renders text v n2 :=
  ⟨h.1, fun fuel c rest hfuel hc => h.2 fuel c rest (by omega) hc⟩

theorem renders_gzip : Renders (stringText "gzip") (.string (stringBytes "gzip")) 1 := by
  have h : stringText "gzip" = 34 :: stringBytes "gzip" ++ [34] := by decide
  rw [h]
  exact renders_string _ (by decide)

theorem renders_byteArray16 (bs : Bytes) (h : isByteArray16 bs = true) :
    Renders (byteArrayText bs) (.array (bs.map (fun x => JValue.number (natText x)))) 18 := by
  simp only [isByteArray16, Bool.and_eq_true, beq_iff_eq, List.all_eq_true,
    decide_eq_true_eq] at h
  obtain ⟨hlen, hall⟩ := h
  cases bs with
  | nil => simp at hlen
  | cons b bs =>
    have := renders_byteArray bs b (fun x hx => by have := hall x hx; omega)
    rw [hlen] at this
    exact this

theorem decodeBytes_numbers (n : Nat) (old bs : Bytes) (h : ∀ x ∈ bs, x < 256) :
    decodeBytes n old (bs.map fun x => JValue.number (natText x)) = .ok (bs.take n) := by
  induction n generalizing old bs with
  | zero => simp [decodeBytes]
  | succ n ih =>
    cases bs with
    | nil => simp [decodeBytes]
    | cons b bs =>
      have hb : b < 256 := h b (by simp)
      have hrec := ih old.tail bs (fun x hx => h x (by simp [hx]))
      simp [decodeBytes, decodeByte, parseUint_natText b 8 (by omega) (by omega), hrec]

theorem decodeByteArray16_numbers (old bs : Bytes) (h : isByteArray16 bs = true) :
    decodeByteArray16 old (.array (bs.map fun x => JValue.number (natText x))) = .ok bs := by
  simp only [isByteArray16, Bool.and_eq_true, beq_iff_eq, List.all_eq_true,
    decide_eq_true_eq] at h
  obtain ⟨hlen, hall⟩ := h
  have htake : bs.take 16 = bs := by rw [← hlen]; exact List.take_length bs
  simp [decodeByteArray16, decodeBytes_numbers 16 old bs hall, htake, hlen]

theorem decodeUint64_natText (old n : Nat) (h : n < 2 ^ 64) :
    decodeUint64 old (.number (natText n)) = .ok n := by
  simp [decodeUint64, parseUint_natText n 64 h h]

theorem decodeInt64_intText (old i : Int) (hlo : -2 ^ 63 ≤ i) (hhi : i < 2 ^ 63) :
    decodeInt64 old (.number (intText i)) = .ok i := by
  simp [decodeInt64, parseInt64_intText i hlo hhi]

theorem decodeByteSlice_base64 (old bs : Bytes) (h : bs.all (· < 256) = true) :
    decodeByteSlice old (.string (base64Encode bs)) = .ok bs := by
  simp [decodeByteSlice, base64Decode_encode bs h]

theorem decodeString_gzip (old : String) :
    decodeString old (.string (stringBytes "gzip")) = .ok "gzip" := by
  have h : bytesToString (stringBytes "gzip") = "gzip" := by decide
  simp [decodeString, h]

theorem findField_tags :
    findField (stringBytes "chunk_id") = some .chunkID ∧
    findField (stringBytes "birth_version") = some .birthVersion ∧
    findField (stringBytes "poid") = some .poid ∧
    findField (stringBytes "offset") = some .offset ∧
    findField (stringBytes "timestamp") = some .timeStamp ∧
    findField (stringBytes "original_size") = some .originalSize ∧
    findField (stringBytes "compressed_size") = some .compressedSize ∧
    findField (stringBytes "original_data_fp") = some .originalDataFP ∧
    findField (stringBytes "compressed_data_fp") = some .compressedDataFP ∧
    findField (stringBytes "compression_alg") = some .compressionAlg ∧
    findField (stringBytes "data") = some .data := by
  decide

theorem tags_plain :
    (stringBytes "chunk_id").all isPlain = true ∧
    (stringBytes "birth_version").all isPlain = true ∧
    (stringBytes "poid").all isPlain = true ∧
    (stringBytes "offset").all isPlain = true ∧
    (stringBytes "timestamp").all isPlain = true ∧
    (stringBytes "original_size").all isPlain = true ∧
    (stringBytes "compressed_size").all isPlain = true ∧
    (stringBytes "original_data_fp").all isPlain = true ∧
    (stringBytes "compressed_data_fp").all isPlain = true ∧
    (stringBytes "compression_alg").all isPlain = true ∧
    (stringBytes "data").all isPlain = true := by
  decide

/-- For a chunk holding values of the Go types and the algorithm name "gzip",
`ToJSON` succeeds and `FromJSON` of its output, into any receiver, succeeds
and leaves the receiver equal to the chunk. -/
theorem fromJSON_toJSON (c r : Chunk) (hc : c.wellTyped = true)
    (halg : c.CompressionAlg = "gzip") :
    ∃ j, c.ToJSON = .ok j ∧ r.FromJSON j = .ok c := by
  obtain ⟨id, bv, poid, off, ts, osz, csz, ofp, cfp, alg, data⟩ := c
  simp only at halg
  subst halg
  simp only [Chunk.wellTyped, Bool.and_eq_true, decide_eq_true_eq] at hc
  obtain ⟨⟨⟨⟨⟨⟨⟨⟨⟨⟨hid, hbv⟩, hpoid⟩, hoff⟩, hts1⟩, hts2⟩, hosz⟩, hcsz⟩, hofp⟩, hcfp⟩, hdata⟩ := hc
  obtain ⟨t1, t2, t3, t4, t5, t6, t7, t8, t9, t10, t11⟩ := tags_plain
  obtain ⟨f1, f2, f3, f4, f5, f6, f7, f8, f9, f10, f11⟩ := findField_tags
  refine ⟨_, rfl, ?_⟩
  have hdoc := parseDocument_object
    (stringBytes "chunk_id", byteArrayText id, .array (id.map fun x => JValue.number (natText x)))
    [(stringBytes "birth_version", natText bv, .number (natText bv)),
     (stringBytes "poid", byteArrayText poid,
       .array (poid.map fun x => JValue.number (natText x))),
     (stringBytes "offset", natText off, .number (natText off)),
     (stringBytes "timestamp", intText ts, .number (intText ts)),
     (stringBytes "original_size", natText osz, .number (natText osz)),
     (stringBytes "compressed_size", natText csz, .number (natText csz)),
     (stringBytes "original_data_fp", byteArrayText ofp,
       .array (ofp.map fun x => JValue.number (natText x))),
     (stringBytes "compressed_data_fp", byteArrayText cfp,
       .array (cfp.map fun x => JValue.number (natText x))),
     (stringBytes "compression_alg", stringText "gzip", .string (stringBytes "gzip")),
     (stringBytes "data", 34 :: base64Encode data ++ [34], .string (base64Encode data))]
    18
    (by
      intro x hx
      simp only [List.mem_cons, List.mem_singleton, List.not_mem_nil, or_false] at hx
      rcases hx with rfl | rfl | rfl | rfl | rfl | rfl | rfl | rfl | rfl | rfl | rfl
      · exact ⟨t1, renders_byteArray16 id hid⟩
      · exact ⟨t2, renders_mono _ _ 1 18 (renders_nat bv hbv) (by decide)⟩
      · exact ⟨t3, renders_byteArray16 poid hpoid⟩
      · exact ⟨t4, renders_mono _ _ 1 18 (renders_nat off hoff) (by decide)⟩
      · exact ⟨t5, renders_mono _ _ 1 18 (renders_int ts hts1 hts2) (by decide)⟩
      · exact ⟨t6, renders_mono _ _ 1 18 (renders_nat osz hosz) (by decide)⟩
      · exact ⟨t7, renders_mono _ _ 1 18 (renders_nat csz hcsz) (by decide)⟩
      · exact ⟨t8, renders_byteArray16 ofp hofp⟩
      · exact ⟨t9, renders_byteArray16 cfp hcfp⟩
      · exact ⟨t10, renders_mono _ _ 1 18 renders_gzip (by decide)⟩
      · exact ⟨t11, renders_mono _ _ 1 18
          (renders_string _ (base64Encode_plain data hdata)) (by decide)⟩)
    (by simp)
  unfold Chunk.FromJSON
  simp only [List.map_cons, List.map_nil, memberText, memberValue] at hdoc
  simp only [Chunk.jsonMembers]
  rw [hdoc]
  simp only [setMembers, f1, f2, f3, f4, f5, f6, f7, f8, f9, f10, f11, setField,
    decodeByteArray16_numbers _ _ hid, decodeByteArray16_numbers _ _ hpoid,
    decodeByteArray16_numbers _ _ hofp, decodeByteArray16_numbers _ _ hcfp,
    decodeUint64_natText _ _ hbv, decodeUint64_natText _ _ hoff, decodeUint64_natText _ _ hosz,
    decodeUint64_natText _ _ hcsz, decodeInt64_intText _ _ hts1 hts2, decodeString_gzip,
    decodeByteSlice_base64 _ _ hdata, Except.map]

theorem lePut_lt (n v : Nat) : ∀ x ∈ lePut n v, x < 256 := by
  induction n generalizing v with
  | zero => simp [lePut]
  | succ n ih =>
    intro x hx
    simp only [lePut, List.mem_cons] at hx
    rcases hx with rfl | hx
    · exact Nat.mod_lt _ (by decide)
    · exact ih _ x hx

theorem md5Sum_isByteArray16 (msg : Bytes) : isByteArray16 (md5Sum msg) = true := by
  simp only [isByteArray16, Bool.and_eq_true, beq_iff_eq, List.all_eq_true, decide_eq_true_eq]
  refine ⟨md5Sum_length msg, ?_⟩
  intro x hx
  simp only [md5Sum, List.mem_append] at hx
  rcases hx with ((hx | hx) | hx) | hx <;> exact lePut_lt _ _ x hx

set_option maxRecDepth 100000 in
/-- C11, counterexample: `mismatchedChunk`, built by
`NewChunkFromCompressedData` with a declared compressed size of 0 and three
bytes of data, has CompressedSize 0 and a Data of length 3; and `FromJSON` of
a document that sets compressed_size to 5, into an empty chunk, succeeds with
CompressedSize 5 and an empty Data. -/
theorem size_invariant_broken :
    (mismatchedChunk.CompressedSize = 0 ∧ mismatchedChunk.Data.length = 3) ∧
    zeroChunk.FromJSON sizeDocument = .ok { zeroChunk with CompressedSize := 5 } ∧
    ({ zeroChunk with CompressedSize := 5 } : Chunk).Data.length = 0 := by
  decide

/-- C11, amended: a chunk returned by `NewChunkFromOriginalData` has
CompressedSize equal to the length of Data (the constructor fails only when
compression does), and the chunk returned by `NewChunkFromCompressedData`
has it exactly when the compressed size the caller passes is the length of
the compressed bytes passed. -/
theorem size_invariant_constructors (gz : Gzip) (now : Int) (v : Nat) (poid : Bytes)
    (off : Nat) (d : Bytes) (osz csz : Nat) (od cd : Bytes) (alg : String) :
    (match NewChunkFromOriginalData gz now v poid off d with
     | .ok c => c.CompressedSize = c.Data.length
     | .error err => compressData gz d = .error err) ∧
    ((NewChunkFromCompressedData now v poid off osz csz od cd alg).CompressedSize =
        (NewChunkFromCompressedData now v poid off osz csz od cd alg).Data.length ↔
      csz = cd.length) := by
  refine ⟨?_, Iff.rfl⟩
  cases hz : compressData gz d with
  | error err => simp [newChunkFromOriginalData_error gz now v poid off d err hz]
  | ok z => simp [newChunkFromOriginalData_eq gz now v poid off d z hz]

/-- C15: for arguments that are values of their Go types (a `uint64` birth
version and offset, a 16-byte POID, an `int64` time, byte slices), when
compression of the payload succeeds, `NewChunkFromOriginalData` returns a
chunk on which `ToJSON` succeeds, and `FromJSON` of that output into an empty
chunk succeeds and yields a chunk equal to it in every field; that chunk
passes `VerifyCompressedDataChecksum`, and `VerifyOriginalDataChecksum` when
decompression inverts compression on the payload. -/
theorem json_roundtrip (gz : Gzip) (now : Int) (v : Nat) (poid : Bytes) (off : Nat)
    (d z : Bytes) (hz : compressData gz d = .ok z) (hv : v < 2 ^ 64)
    (hpoid : isByteArray16 poid = true) (hoff : off < 2 ^ 64) (hlo : -2 ^ 63 ≤ now)
    (hhi : now < 2 ^ 63) (hd : d.length < 2 ^ 64) (hzlen : z.length < 2 ^ 64)
    (hzb : z.all (· < 256) = true) :
    ∃ c j, NewChunkFromOriginalData gz now v poid off d = .ok c ∧ c.ToJSON = .ok j ∧
      zeroChunk.FromJSON j = .ok c ∧ c.VerifyCompressedDataChecksum = true ∧
      ((decompressData gz z).1 = d → c.VerifyOriginalDataChecksum gz = true) := by
  have hwt : Chunk.wellTyped
      { ChunkID := computeMD5 []
        BirthVersion := v
        POID := poid
        Offset := off
        TimeStamp := now
        OriginalSize := d.length
        CompressedSize := z.length
        OriginalDataFP := computeMD5 d
        CompressedDataFP := computeMD5 z
        CompressionAlg := "gzip"
        Data := z } = true := by
    simp only [Chunk.wellTyped, computeMD5, md5Sum_isByteArray16, hpoid, hzb, Bool.and_eq_true,
      decide_eq_true_eq, true_and, and_true]
    exact ⟨⟨⟨⟨⟨hv, hoff⟩, hlo⟩, hhi⟩, hd⟩, hzlen⟩
  obtain ⟨j, hj, hfrom⟩ := fromJSON_toJSON _ zeroChunk hwt rfl
  refine ⟨_, j, newChunkFromOriginalData_eq gz now v poid off d z hz, hj, hfrom, ?_, ?_⟩
  · simp [Chunk.VerifyCompressedDataChecksum]
  · intro hinv
    simp [Chunk.VerifyOriginalDataChecksum, hinv]

set_option maxRecDepth 100000 in
/-- C15, witness: the input of TestJSONConversion at time 1700000000, with
the stored-block codec. -/
theorem json_roundtrip_witness :
    ∃ c j, NewChunkFromOriginalData storedGzip 1700000000 1 examplePoid 0 testPayload = .ok c ∧
      c.ToJSON = .ok j ∧ zeroChunk.FromJSON j = .ok c ∧
      c.VerifyCompressedDataChecksum = true ∧
      ((decompressData storedGzip (storedOutput testPayload)).1 = testPayload →
        c.VerifyOriginalDataChecksum storedGzip = true) :=
  json_roundtrip storedGzip 1700000000 1 examplePoid 0 testPayload (storedOutput testPayload)
    rfl (by decide) (by decide) (by decide) (by decide) (by decide) (by decide) (by decide)
    (by decide)

end Pistore
